import Mathlib

/-!
Verification of the `mobile-maker` build script (`scripts/recreate-android.js`).

The repository is a sequential Node script that reads `app-config.json`,
reconciles npm plugin dependencies, regenerates the Android project, writes
`local.properties`, injects `<uses-permission>` tags into
`AndroidManifest.xml`, and syncs.  The source file contains two versions of
the script (a current one and an older one after a separator); where a claim
references both, the two versions implement the same text transformation and
a single embedding covers both.

JavaScript strings are embedded as `List Char`; `String.prototype.lastIndexOf`
and `String.prototype.includes` are embedded as explicit scans over start
positions.  File-system state and external-command outcomes are embedded as an
explicit `World` record and an `Env` record of command/environment oracles.
-/

/-! ## String-search primitives (JS `lastIndexOf` / `includes`) -/

abbrev Chars := List Char

/-- `matchesAt pat s i`: the pattern `pat` occurs in `s` starting at index `i`. -/
def matchesAt (pat s : Chars) (i : Nat) : Bool :=
  List.isPrefixOf pat (s.drop i)

/-- Largest index `< n` at which `pat` matches in `s`, scanning downward.
Embeds the search done by JS `s.lastIndexOf(pat)` (which returns the largest
matching start index, or -1 — embedded as `none`). -/
def lastMatchBelow (pat s : Chars) : Nat → Option Nat
  | 0 => none
  | n + 1 => if matchesAt pat s n then some n else lastMatchBelow pat s n

/-- JS `s.lastIndexOf(pat)`: for a nonempty `pat` every match starts at an
index `≤ s.length`, so scanning below `s.length + 1` finds the last match. -/
def lastIndexOf (pat s : Chars) : Option Nat :=
  lastMatchBelow pat s (s.length + 1)

/-- JS `s.includes(pat)` (for the nonempty patterns the script uses). -/
def includesSub (s pat : Chars) : Bool :=
  (lastIndexOf pat s).isSome

/-- Number of (possibly overlapping) occurrence positions of `pat` in `s`. -/
def countOcc (pat s : Chars) : Nat :=
  ((List.range (s.length + 1)).filter (fun i => matchesAt pat s i)).length

/-! ## Step 5: permission injection (`step5_injectPermissions`)

Source (current version, lines 111–138; the older version's step 5 at lines
304–342 performs the identical transformation):

    let content = fs.readFileSync(PATHS.MANIFEST, 'utf8');
    const closingTag = '</manifest>';
    const idx = content.lastIndexOf(closingTag);
    if (idx === -1) return error('   ⚠️ Invalid Manifest format.');
    const toInject = Object.entries(permissions || {})
        .filter(([, enabled]) => enabled)
        .map(([name]) => `<uses-permission android:name="${name}" />`)
        .filter(tag => !content.includes(tag));
    if (toInject.length > 0) {
        content = content.substring(0, idx) +
            '\n    <!-- Auto-injected permissions -->\n    ' +
            toInject.join('\n    ') + '\n' +
            content.substring(idx);
        fs.writeFileSync(PATHS.MANIFEST, content, 'utf8');
    }

A permissions mapping is embedded as an association list `List (String × Bool)`
(JS object keys are distinct; claims that need distinctness assume `Nodup`).
-/

def closingTagL : Chars := "</manifest>".data

def tagHeadL : Chars := "<uses-permission android:name=\"".data

def tagTailL : Chars := "\" />".data

/-- The permission tag line `<uses-permission android:name="NAME" />`. -/
def permTagL (name : String) : Chars := tagHeadL ++ name.data ++ tagTailL

def headerL : Chars := "\n    <!-- Auto-injected permissions -->\n    ".data

def sepL : Chars := "\n    ".data

/-- JS `toInject.join('\n    ')`. -/
def joinTags : List Chars → Chars
  | [] => []
  | [t] => t
  | t :: ts => t ++ sepL ++ joinTags ts

/-- The `toInject` list: tags of enabled permissions not already present
verbatim in the manifest content. -/
def toInject (permissions : List (String × Bool)) (content : Chars) : List Chars :=
  ((permissions.filter (fun p => p.2)).map (fun p => permTagL p.1)).filter
    (fun tag => !(includesSub content tag))

/-- The write performed by step 5 on the manifest content: `some newContent`
when the file is rewritten, `none` when no write happens (closing tag missing,
or nothing to inject). -/
def step5Core (permissions : List (String × Bool)) (content : Chars) : Option Chars :=
  match lastIndexOf closingTagL content with
  | none => none
  | some idx =>
    let tags := toInject permissions content
    if tags.isEmpty then none
    else some (content.take idx ++ headerL ++ joinTags tags ++ ['\n'] ++ content.drop idx)

/-- Step 5 as called from `run`: `config.permissions` may be `undefined`
(`Object.entries(permissions || {})` treats it as the empty mapping). -/
def step5Model (permissions : Option (List (String × Bool))) (content : Chars) : Option Chars :=
  step5Core (permissions.getD []) content

/-- The manifest content after step 5 (unchanged when no write happens). -/
def applyStep (permissions : List (String × Bool)) (content : Chars) : Chars :=
  (step5Core permissions content).getD content

/-! ## JSON values and JS object operations

`capacitor.config.json` is parsed by `JSON.parse` into a JS object; the script
updates some of its properties and writes it back.  A JSON value is embedded as
`JVal`, an object as an association list of fields in property order (JSON
objects have distinct keys).  JS property assignment `o.k = v` updates the
value in place when the key exists (property order is kept) and appends the
key otherwise. -/

inductive JVal where
  | jnull : JVal
  | jbool : Bool → JVal
  | jnum : Int → JVal
  | jstr : String → JVal
  | jobj : List (String × JVal) → JVal

abbrev JObj := List (String × JVal)

/-- JS property read `o[k]` on an object (distinct keys: first match). -/
def lookupA {α : Type} (fs : List (String × α)) (k : String) : Option α :=
  match fs with
  | [] => none
  | (k', v) :: rest => if k' = k then some v else lookupA rest k

/-- JS property assignment `o[k] = v` on an object. -/
def setA {α : Type} (fs : List (String × α)) (k : String) (v : α) : List (String × α) :=
  match fs with
  | [] => [(k, v)]
  | (k', v') :: rest => if k' = k then (k', v) :: rest else (k', v') :: setA rest k v

/-- JS truthiness of a JSON value (`null`, `false`, `0`, `""` are falsy). -/
def jTruthy : JVal → Bool
  | .jnull => false
  | .jbool b => b
  | .jnum n => !(n == 0)
  | .jstr s => !(s == "")
  | .jobj _ => true

/-- The own enumerable properties spread by `{ ...v }`: an object's fields; a
string's indexed characters; nothing for the other primitives. -/
def spreadFields : JVal → JObj
  | .jobj fs => fs
  | .jstr s => s.data.enum.map (fun ic => (toString ic.1, JVal.jstr (String.mk [ic.2])))
  | _ => []

/-! ## The app configuration (`app-config.json`)

Read-only input of the script, with fields `appId`, `appName`, `webUrl`,
optional `backgroundColor`, and optional `plugins` / `permissions` mappings
from name to boolean flag. -/

structure AppConfig where
  appId : String
  appName : String
  webUrl : String
  backgroundColor : Option String
  plugins : Option (List (String × Bool))
  permissions : Option (List (String × Bool))

/-- JS truthiness of `appConfig.backgroundColor` (absent or `""` is falsy). -/
def appBgTruthy : Option String → Bool
  | some s => !(s == "")
  | none => false

/-! ## Step 0: config update (`step0_updateConfig`, lines 34–53)

    capConfig.appId = appConfig.appId;
    capConfig.appName = appConfig.appName;
    capConfig.server = { ...(capConfig.server || {}), url: appConfig.webUrl, cleartext: true };
    if (appConfig.backgroundColor) capConfig.backgroundColor = appConfig.backgroundColor;

The older version's `updateConfig` (lines 203–221) performs the identical
update. -/

/-- `capConfig.server || {}`: the old server value when truthy, else `{}`. -/
def serverBase (cap : JObj) : JVal :=
  match lookupA cap "server" with
  | some v => if jTruthy v then v else .jobj []
  | none => .jobj []

/-- The bridge configuration after the `appId`, `appName` and `server`
assignments (the state of `capConfig` just before the optional
`backgroundColor` line): `server` is rebuilt by spreading the old truthy
server value and overriding `url` and `cleartext`. -/
def capAfterServer (app : AppConfig) (cap : JObj) : JObj :=
  let c1 := setA cap "appId" (.jstr app.appId)
  let c2 := setA c1 "appName" (.jstr app.appName)
  let newServer : JVal :=
    .jobj (setA (setA (spreadFields (serverBase c2)) "url" (.jstr app.webUrl))
      "cleartext" (.jbool true))
  setA c2 "server" newServer

/-- The new `capacitor.config.json` object written by step 0:
`if (appConfig.backgroundColor) capConfig.backgroundColor = appConfig.backgroundColor`. -/
def updateCap (app : AppConfig) (cap : JObj) : JObj :=
  let c3 := capAfterServer app cap
  match app.backgroundColor with
  | some bc => if !(bc == "") then setA c3 "backgroundColor" (.jstr bc) else c3
  | none => c3

/-! ## Step 0.5: plugin management (`step0_5_managePlugins`, lines 55–72)

    const pkg = readJson(PATHS.PACKAGE_JSON);
    const installed = { ...pkg.dependencies, ...pkg.devDependencies };
    Object.entries(plugins).forEach(([plugin, isEnabled]) => {
        const isInstalled = !!installed[plugin];
        if (isEnabled && !isInstalled) runs(`npm install ` + plugin);
        else if (!isEnabled && isInstalled) runs(`npm uninstall ` + plugin);
    });

The older version's `managePlugins` (lines 228–248) is identical.  The
`installed` snapshot is computed once, before any command runs; the commands
then act on the real dependency state.  The dependency state is embedded as a
lookup from package name to version string; `!!installed[plugin]` is JS
truthiness, which is false for a missing key and for the empty string. -/

/-- JS truthiness of a dependency-map entry: `!!installed[p]`. -/
def truthyVal : Option String → Bool
  | some s => !(s == "")
  | none => false

/-- Lookup in `{ ...pkg.dependencies, ...pkg.devDependencies }`
(`devDependencies` spread last, so its entries win). -/
def mergedLookup (deps devDeps : List (String × String)) (k : String) : Option String :=
  match lookupA devDeps k with
  | some v => some v
  | none => lookupA deps k

inductive NpmCmd where
  | install : String → NpmCmd
  | uninstall : String → NpmCmd
deriving DecidableEq

def cmdName : NpmCmd → String
  | .install p => p
  | .uninstall p => p

/-- The package-manager commands issued by step 0.5, in entry order, decided
from the `installed` snapshot `ins`. -/
def commandsFor (ins : String → Option String) (plugins : List (String × Bool)) : List NpmCmd :=
  plugins.filterMap (fun pe =>
    if pe.2 && !(truthyVal (ins pe.1)) then some (.install pe.1)
    else if !pe.2 && truthyVal (ins pe.1) then some (.uninstall pe.1)
    else none)

/-- Standard effect of one package-manager command on the combined dependency
list (the claim's assumption): `npm install p` records `p` with the version
`ver p` the registry resolves (a nonempty string), `npm uninstall p` removes
`p`'s entry. -/
def applyCmd (ver : String → String) (st : String → Option String) :
    NpmCmd → String → Option String
  | .install p => fun k => if k = p then some (ver p) else st k
  | .uninstall p => fun k => if k = p then none else st k

def applyCmds (ver : String → String) (st : String → Option String)
    (cmds : List NpmCmd) : String → Option String :=
  cmds.foldl (applyCmd ver) st

/-! ## Step 4: `local.properties` (`step4_createLocalProperties`, lines 91–109)

    const sdkPath = process.env.ANDROID_HOME || process.env.ANDROID_SDK_ROOT;
    let targetPath = sdkPath;
    if (!targetPath) {
        if (process.platform === 'win32') targetPath = path.join(process.env.LOCALAPPDATA, 'Android', 'Sdk');
        else if (process.platform === 'darwin') targetPath = path.join(process.env.HOME, 'Library', 'Android', 'sdk');
    }
    if (targetPath && fs.existsSync(targetPath)) {
        const escaped = targetPath.replace(/\\/g, '\\\\');
        fs.writeFileSync(PATHS.LOCAL_PROPS, `sdk.dir=` + escaped + `\n`, 'utf8');
    } else error(...)

Environment variables are embedded as `Option String` (`none` = unset);
`A || B` is the JS truthiness chain, so a set-but-empty variable is skipped.
`path.join(undefined, ...)` throws a `TypeError`, embedded as `.error`.
`path.join` with an empty base drops the empty segment; normalization of
separators already inside the segments is not modelled (the script's own
segments contain none). -/

inductive Platform where
  | win32 : Platform
  | darwin : Platform
  | other : Platform
deriving DecidableEq

/-- The value of `A || B || ...` contributed by one env var: `none` if unset
or empty (falsy), `some` otherwise. -/
def truthyEnvVar : Option String → Option String
  | some s => if s == "" then none else some s
  | none => none

/-- `path.join(base, 'Android', 'Sdk')` on win32 (separator `\`). -/
def winSdkJoin (base : String) : String :=
  (if base == "" then "Android" else base ++ "\\Android") ++ "\\Sdk"

/-- `path.join(base, 'Library', 'Android', 'sdk')` on darwin (separator `/`). -/
def macSdkJoin (base : String) : String :=
  (if base == "" then "Library" else base ++ "/Library") ++ "/Android/sdk"

/-- The SDK path step 4 resolves: env chain first, then the platform default;
`.error` when `path.join` is called on an undefined env var; `.ok none` when
no candidate path exists (non-win32/darwin platform with no env var set). -/
def resolveSdkPath (androidHome androidSdkRoot localAppData home : Option String)
    (plat : Platform) : Except Unit (Option String) :=
  match truthyEnvVar androidHome with
  | some p => .ok (some p)
  | none =>
    match truthyEnvVar androidSdkRoot with
    | some p => .ok (some p)
    | none =>
      match plat with
      | .win32 =>
        match localAppData with
        | none => .error ()
        | some l => .ok (some (winSdkJoin l))
      | .darwin =>
        match home with
        | none => .error ()
        | some h => .ok (some (macSdkJoin h))
      | .other => .ok none

/-- `targetPath.replace(/\\/g, '\\\\')`: double every backslash. -/
def escBsL : Chars → Chars
  | [] => []
  | c :: cs => if c == '\\' then '\\' :: '\\' :: escBsL cs else c :: escBsL cs

/-- The full content written to `local.properties` for a resolved path `p`. -/
def sdkLine (p : String) : String :=
  "sdk.dir=" ++ String.mk (escBsL p.data) ++ "\n"

/-- Step 4's write: `.ok (some content)` when the file is generated,
`.ok none` when it is not (no candidate path, or the path does not exist on
the filesystem), `.error` when `path.join` throws. -/
def step4Gen (androidHome androidSdkRoot localAppData home : Option String)
    (plat : Platform) (sdkPathExists : String → Bool) : Except Unit (Option String) :=
  match resolveSdkPath androidHome androidSdkRoot localAppData home plat with
  | .error e => .error e
  | .ok none => .ok none
  | .ok (some p) => if sdkPathExists p then .ok (some (sdkLine p)) else .ok none

/-! ## Whole-script execution (`run`, lines 147–166)

    try {
        const config = step0_updateConfig();
        step0_5_managePlugins(config.plugins);
        step1_buildWeb(); step2_removeAndroid(); step3_generateAndroid();
        step4_createLocalProperties(); step5_injectPermissions(config.permissions);
        step6_finalSync();
    } catch (e) { error('\n❌ Build Failed!'); console.error(e); process.exit(1); }

On success the process exits naturally with code 0 (no pending work remains);
any thrown error is caught, printed to the error stream, and turns into
`process.exit(1)`.

The filesystem the script touches is embedded as `World` (parsed file
contents; `none` = file missing); outcomes of external commands and the
environment are embedded as `Env` oracles.  Error values are embedded as
distinguishing message strings. -/

abbrev PkgPair := List (String × String) × List (String × String)

structure Env where
  androidHome : Option String
  androidSdkRoot : Option String
  localAppData : Option String
  home : Option String
  platform : Platform
  sdkPathExists : String → Bool
  installVer : String → String
  npmOk : NpmCmd → Bool
  buildOk : Bool
  capAddOk : Bool
  capAddManifest : Option Chars
  capSyncOk : Bool

structure World where
  appConfig : Option AppConfig
  capConfig : Option JObj
  pkgJson : Option PkgPair
  manifest : Option Chars
  localProps : Option String
  androidDirExists : Bool
  errLog : List String

def appConfigMissingMsg : String := "File not found: app-config.json"

def capMissingMsg : String := "capacitor.config.json not found."

def pkgMissingMsg : String := "File not found: package.json"

def npmFailMsg (c : NpmCmd) : String := "npm command failed: " ++ cmdName c

def buildFailMsg : String := "npm run build failed"

def capAddFailMsg : String := "npx cap add android failed"

def sdkJoinErrMsg : String := "TypeError: path.join received undefined"

def sdkNotFoundMsg : String := "Android SDK not found."

def manifestMissingMsg : String := "Manifest not found"

def invalidManifestMsg : String := "Invalid Manifest format."

def syncFailMsg : String := "npx cap sync failed"

def buildFailedBanner : String := "Build Failed!"

/-- Remove a key from an association list (effect of `npm uninstall` on a
dependency section). -/
def removeA {α : Type} (fs : List (String × α)) (k : String) : List (String × α) :=
  fs.filter (fun kv => !(kv.1 == k))

/-- Standard effect of one command on `package.json`'s two dependency
sections: install records the resolved version under `dependencies`,
uninstall removes the package from both sections. -/
def applyCmdPair (env : Env) (pr : PkgPair) : NpmCmd → PkgPair
  | .install p => (setA pr.1 p (env.installVer p), pr.2)
  | .uninstall p => (removeA pr.1 p, removeA pr.2 p)

/-- Run the issued commands in order; stop at the first failing one
(`execSync` throws), returning the state reached and the failing command. -/
def runCmdsW (env : Env) : List NpmCmd → PkgPair → PkgPair × Option NpmCmd
  | [], pr => (pr, none)
  | c :: rest, pr =>
    if env.npmOk c then runCmdsW env rest (applyCmdPair env pr c) else (pr, some c)

/-- One step of `run`: the world after the step, and the thrown error if the
step threw. -/
abbrev StepFn := World → World × Option String

/-- Step 0's effect once `app-config.json` was read successfully: update
`capacitor.config.json` if it exists, otherwise log a warning to the error
stream. -/
def step0Write (app : AppConfig) (w : World) : World :=
  match w.capConfig with
  | some cap => { w with capConfig := some (updateCap app cap) }
  | none => { w with errLog := w.errLog ++ [capMissingMsg] }

def step05W (env : Env) (app : AppConfig) : StepFn := fun w =>
  match app.plugins with
  | none => (w, none)
  | some ps =>
    match w.pkgJson with
    | none => (w, some pkgMissingMsg)
    | some pr =>
      match runCmdsW env (commandsFor (fun k => mergedLookup pr.1 pr.2 k) ps) pr with
      | (pr2, none) => ({ w with pkgJson := some pr2 }, none)
      | (pr2, some c) => ({ w with pkgJson := some pr2 }, some (npmFailMsg c))

def step1W (env : Env) : StepFn := fun w =>
  if env.buildOk then (w, none) else (w, some buildFailMsg)

def step2W : StepFn := fun w =>
  if w.androidDirExists then
    ({ w with androidDirExists := false, manifest := none, localProps := none }, none)
  else (w, none)

def step3W (env : Env) : StepFn := fun w =>
  if env.capAddOk then
    ({ w with androidDirExists := true, manifest := env.capAddManifest }, none)
  else (w, some capAddFailMsg)

def step4W (env : Env) : StepFn := fun w =>
  match resolveSdkPath env.androidHome env.androidSdkRoot env.localAppData env.home env.platform with
  | .error _ => (w, some sdkJoinErrMsg)
  | .ok none => ({ w with errLog := w.errLog ++ [sdkNotFoundMsg] }, none)
  | .ok (some p) =>
    if env.sdkPathExists p then ({ w with localProps := some (sdkLine p) }, none)
    else ({ w with errLog := w.errLog ++ [sdkNotFoundMsg] }, none)

def step5W (app : AppConfig) : StepFn := fun w =>
  match w.manifest with
  | none => ({ w with errLog := w.errLog ++ [manifestMissingMsg] }, none)
  | some content =>
    match lastIndexOf closingTagL content with
    | none => ({ w with errLog := w.errLog ++ [invalidManifestMsg] }, none)
    | some _ =>
      match step5Model app.permissions content with
      | some c2 => ({ w with manifest := some c2 }, none)
      | none => (w, none)

def step6W (env : Env) : StepFn := fun w =>
  if env.capSyncOk then (w, none) else (w, some syncFailMsg)

/-- Run a list of steps in order, stopping at the first thrown error. -/
def runList : List StepFn → World → World × Option String
  | [], w => (w, none)
  | s :: rest, w =>
    match s w with
    | (w2, none) => runList rest w2
    | (w2, some e) => (w2, some e)

def stepList (env : Env) (app : AppConfig) : List StepFn :=
  [step05W env app, step1W env, step2W, step3W env, step4W env, step5W app, step6W env]

/-- The `try` body of `run`: final world and the caught error, if any. -/
def runScript (env : Env) (w : World) : World × Option String :=
  match w.appConfig with
  | none => (w, some appConfigMissingMsg)
  | some app => runList (stepList env app) (step0Write app w)

/-- The whole process: final world (error stream included) and exit code. -/
def runMain (env : Env) (w : World) : World × Nat :=
  match runScript env w with
  | (w2, none) => (w2, 0)
  | (w2, some e) => ({ w2 with errLog := w2.errLog ++ [buildFailedBanner, e] }, 1)

/-- Error outcome of steps 1–6, which depends only on the environment. -/
def tailErr (env : Env) : Option String :=
  if env.buildOk then
    if env.capAddOk then
      match resolveSdkPath env.androidHome env.androidSdkRoot env.localAppData env.home env.platform with
      | .error _ => some sdkJoinErrMsg
      | .ok _ => if env.capSyncOk then none else some syncFailMsg
    else some capAddFailMsg
  else some buildFailMsg

/-- Closed form of the error outcome of the whole `try` body after step 0
succeeded: it depends only on the environment, the plugins mapping and
`package.json` — in particular not on `capacitor.config.json`. -/
def scriptErr (env : Env) (app : AppConfig) (pkg : Option PkgPair) : Option String :=
  match app.plugins with
  | none => tailErr env
  | some ps =>
    match pkg with
    | none => some pkgMissingMsg
    | some pr =>
      match (runCmdsW env (commandsFor (fun k => mergedLookup pr.1 pr.2 k) ps) pr).2 with
      | some c => some (npmFailMsg c)
      | none => tailErr env

/-- Occurrence count of an element in a list (used to state "exactly once"). -/
def countElem {α : Type} [DecidableEq α] (x : α) (l : List α) : Nat :=
  (l.filter (fun y => y = x)).length

/-- Error outcome of step 0.5 alone. -/
def plugErr (env : Env) (app : AppConfig) (pkg : Option PkgPair) : Option String :=
  match app.plugins with
  | none => none
  | some ps =>
    match pkg with
    | none => some pkgMissingMsg
    | some pr =>
      match (runCmdsW env (commandsFor (fun k => mergedLookup pr.1 pr.2 k) ps) pr).2 with
      | some c => some (npmFailMsg c)
      | none => none

/-! ## Lemmas about the string-search primitives -/

lemma matchesAt_iff {pat s : Chars} {i : Nat} :
    matchesAt pat s i = true ↔ pat <+: s.drop i := by
  unfold matchesAt
  exact List.isPrefixOf_iff_prefix

lemma matchesAt_gt_len {pat s : Chars} {j : Nat} (hp : pat ≠ []) (hj : s.length < j) :
    matchesAt pat s j = false := by
  have hd : s.drop j = [] := List.drop_eq_nil_of_le (Nat.le_of_lt hj)
  unfold matchesAt
  rw [hd]
  cases pat with
  | nil => exact absurd rfl hp
  | cons a l => rfl

lemma lastMatchBelow_spec {pat s : Chars} :
    ∀ {n i}, lastMatchBelow pat s n = some i →
      i < n ∧ matchesAt pat s i = true ∧
        ∀ j, i < j → j < n → matchesAt pat s j = false := by
  intro n
  induction n with
  | zero => intro i h; simp [lastMatchBelow] at h
  | succ n ih =>
    intro i h
    unfold lastMatchBelow at h
    by_cases hm : matchesAt pat s n = true
    · rw [if_pos hm] at h
      cases h
      exact ⟨Nat.lt_succ_self _, hm, fun j hij hjn => absurd (by omega : ¬ j < n + 1) (by omega)⟩
    · rw [if_neg hm] at h
      obtain ⟨hin, hmi, hmax⟩ := ih h
      refine ⟨Nat.lt_succ_of_lt hin, hmi, ?_⟩
      intro j hij hjn
      rcases Nat.lt_succ_iff_lt_or_eq.mp hjn with h1 | h2
      · exact hmax j hij h1
      · subst h2
        exact Bool.eq_false_iff.mpr (by simpa using hm)

lemma lastMatchBelow_none {pat s : Chars} :
    ∀ {n}, lastMatchBelow pat s n = none → ∀ j, j < n → matchesAt pat s j = false := by
  intro n
  induction n with
  | zero => intro _ j hj; omega
  | succ n ih =>
    intro h j hj
    unfold lastMatchBelow at h
    by_cases hm : matchesAt pat s n = true
    · rw [if_pos hm] at h; cases h
    · rw [if_neg hm] at h
      rcases Nat.lt_succ_iff_lt_or_eq.mp hj with h1 | h2
      · exact ih h j h1
      · subst h2
        exact Bool.eq_false_iff.mpr (by simpa using hm)

lemma lastMatchBelow_isSome_of {pat s : Chars} {j n : Nat}
    (hm : matchesAt pat s j = true) (hj : j < n) :
    (lastMatchBelow pat s n).isSome = true := by
  cases h : lastMatchBelow pat s n with
  | none =>
    have := lastMatchBelow_none h j hj
    rw [hm] at this
    cases this
  | some i => rfl

lemma lastIndexOf_spec {pat s : Chars} {i : Nat} (hp : pat ≠ [])
    (h : lastIndexOf pat s = some i) :
    matchesAt pat s i = true ∧ ∀ j, i < j → matchesAt pat s j = false := by
  obtain ⟨hin, hmi, hmax⟩ := lastMatchBelow_spec h
  refine ⟨hmi, fun j hij => ?_⟩
  by_cases hj : j < s.length + 1
  · exact hmax j hij hj
  · exact matchesAt_gt_len hp (by omega)

lemma lastIndexOf_isSome_iff {pat s : Chars} (hp : pat ≠ []) :
    (lastIndexOf pat s).isSome = true ↔ ∃ j, matchesAt pat s j = true := by
  constructor
  · intro h
    cases hopt : lastIndexOf pat s with
    | none => rw [hopt] at h; cases h
    | some i => exact ⟨i, (lastIndexOf_spec hp hopt).1⟩
  · rintro ⟨j, hj⟩
    by_cases hjn : j < s.length + 1
    · exact lastMatchBelow_isSome_of hj hjn
    · rw [matchesAt_gt_len hp (by omega)] at hj
      cases hj

lemma matchesAt_exists_iff_inf {pat s : Chars} :
    (∃ j, matchesAt pat s j = true) ↔ pat <:+: s := by
  constructor
  · rintro ⟨j, hj⟩
    have hpre : pat <+: s.drop j := matchesAt_iff.mp hj
    have hsuf : s.drop j <:+ s := List.drop_suffix j s
    exact List.IsInfix.trans (List.IsPrefix.isInfix hpre) (List.IsSuffix.isInfix hsuf)
  · rintro ⟨a, b, rfl⟩
    refine ⟨a.length, matchesAt_iff.mpr ?_⟩
    rw [List.append_assoc, List.drop_left]
    exact List.prefix_append pat b

lemma includesSub_iff {s pat : Chars} (hp : pat ≠ []) :
    includesSub s pat = true ↔ pat <:+: s := by
  unfold includesSub
  rw [lastIndexOf_isSome_iff hp]
  exact matchesAt_exists_iff_inf

lemma includesSub_false_iff {s pat : Chars} (hp : pat ≠ []) :
    includesSub s pat = false ↔ ¬ pat <:+: s := by
  rw [← includesSub_iff hp]
  cases includesSub s pat <;> simp

/-! ## Occurrences survive the splice at the closing tag

Inserting text at the position of an occurrence of `</manifest>` cannot
destroy an occurrence of a permission tag, as long as the tag does not itself
contain `</manifest>`: a tag ends in `'>'`, and no proper nonempty suffix of
it can be a proper prefix of `</manifest>` (such a prefix contains no `'>'`),
so no tag occurrence can straddle the insertion point. -/

lemma closing_take_getLast :
    ∀ L, L < 11 → 1 ≤ L → ¬ ((closingTagL.take L).getLast? = some '>') := by
  decide

lemma getLast_drop {l : Chars} {d : Nat} (h : l.drop d ≠ []) :
    (l.drop d).getLast? = l.getLast? := by
  have h2 := List.getLast?_append_of_ne_nil (l.take d) h
  rw [List.take_append_drop] at h2
  exact h2.symm

lemma span_impossible {t u : Chars} {d : Nat}
    (hd1 : 0 < d) (hd2 : d < t.length)
    (htu : t <+: u) (hcl : closingTagL <+: u.drop d)
    (hlast : t.getLast? = some '>') (hni : ¬ closingTagL <:+: t) : False := by
  obtain ⟨r, rfl⟩ := htu
  rw [List.drop_append_of_le_length (Nat.le_of_lt hd2)] at hcl
  by_cases hlen : 11 ≤ t.length - d
  · have h1 : closingTagL <+: t.drop d := by
      have heq := List.prefix_iff_eq_take.mp hcl
      rw [List.take_append_of_le_length
        (by rw [List.length_drop]; have h11 : closingTagL.length = 11 := rfl; omega)] at heq
      rw [heq]
      exact List.take_prefix _ _
    exact hni
      (List.IsInfix.trans (List.IsPrefix.isInfix h1) (List.IsSuffix.isInfix (List.drop_suffix d t)))
  · have hL1 : 1 ≤ t.length - d := by omega
    have hL2 : t.length - d < 11 := by omega
    have hdt_ne : t.drop d ≠ [] := by
      intro h
      have := congrArg List.length h
      simp at this
      omega
    have hpre2 : t.drop d <+: closingTagL := by
      refine List.prefix_of_prefix_length_le (List.prefix_append _ _) hcl ?_
      simp [closingTagL]
      omega
    have heq : t.drop d = closingTagL.take (t.length - d) := by
      have h3 := List.prefix_iff_eq_take.mp hpre2
      simpa using h3
    have hlast2 : (closingTagL.take (t.length - d)).getLast? = some '>' := by
      rw [← heq, getLast_drop hdt_ne, hlast]
    exact closing_take_getLast _ hL2 hL1 hlast2

lemma pref_take_of_le {l m : Chars} {n : Nat} (h : l <+: m) (hn : l.length ≤ n) :
    l <+: m.take n := by
  rw [List.prefix_iff_eq_take] at h ⊢
  rw [List.take_take, Nat.min_eq_left hn]
  exact h

lemma inf_take_of_fit {t content : Chars} {p idx : Nat}
    (hm : matchesAt t content p = true) (hfit : p + t.length ≤ idx) :
    t <:+: content.take idx := by
  have hpre : t <+: content.drop p := matchesAt_iff.mp hm
  have h1 : t <+: (content.drop p).take (idx - p) := pref_take_of_le hpre (by omega)
  rw [← List.drop_take] at h1
  exact List.IsInfix.trans (List.IsPrefix.isInfix h1)
    (List.IsSuffix.isInfix (List.drop_suffix p (content.take idx)))

lemma inf_drop_of_ge {t content : Chars} {p idx : Nat}
    (hm : matchesAt t content p = true) (hge : idx ≤ p) :
    t <:+: content.drop idx := by
  have hpre : t <+: content.drop p := matchesAt_iff.mp hm
  have heq : (content.drop idx).drop (p - idx) = content.drop p := by
    rw [List.drop_drop]
    congr 1
    omega
  rw [← heq] at hpre
  exact List.IsInfix.trans (List.IsPrefix.isInfix hpre)
    (List.IsSuffix.isInfix (List.drop_suffix (p - idx) (content.drop idx)))

/-- An occurrence of a `'>'`-terminated pattern `t` not containing the closing
tag survives the insertion of arbitrary text at an occurrence of the closing
tag. -/
lemma inf_splice {t content ins : Chars} {idx : Nat}
    (hcl : matchesAt closingTagL content idx = true)
    (hlast : t.getLast? = some '>')
    (hni : ¬ closingTagL <:+: t)
    (ht : t <:+: content) :
    t <:+: (content.take idx ++ ins ++ content.drop idx) := by
  obtain ⟨p, hp⟩ := matchesAt_exists_iff_inf.mpr ht
  by_cases h1 : p + t.length ≤ idx
  · have h2 := inf_take_of_fit hp h1
    have h3 : content.take idx <+: content.take idx ++ (ins ++ content.drop idx) :=
      List.prefix_append _ _
    rw [← List.append_assoc] at h3
    exact List.IsInfix.trans h2 (List.IsPrefix.isInfix h3)
  · by_cases h2 : idx ≤ p
    · have h3 := inf_drop_of_ge hp h2
      exact List.IsInfix.trans h3
        (List.IsSuffix.isInfix (List.suffix_append (content.take idx ++ ins) (content.drop idx)))
    · exfalso
      have hd1 : 0 < idx - p := by omega
      have hd2 : idx - p < t.length := by omega
      have htu : t <+: content.drop p := matchesAt_iff.mp hp
      have hcl2 : closingTagL <+: (content.drop p).drop (idx - p) := by
        rw [List.drop_drop]
        have heq : p + (idx - p) = idx := by omega
        rw [heq]
        exact matchesAt_iff.mp hcl
      exact span_impossible hd1 hd2 htu hcl2 hlast hni

/-! ## Lemmas about permission tags and the injected block -/

lemma permTagL_ne_nil (name : String) : permTagL name ≠ [] := by
  unfold permTagL
  intro h
  obtain ⟨h1, -⟩ := List.append_eq_nil.mp h
  obtain ⟨h2, -⟩ := List.append_eq_nil.mp h1
  exact absurd h2 (by decide)

lemma permTag_getLast (name : String) : (permTagL name).getLast? = some '>' := by
  unfold permTagL
  rw [List.append_assoc]
  have hne : name.data ++ tagTailL ≠ [] := by
    intro h
    obtain ⟨-, h2⟩ := List.append_eq_nil.mp h
    exact absurd h2 (by decide)
  rw [List.getLast?_append_of_ne_nil _ hne]
  rw [List.getLast?_append_of_ne_nil _ (by decide : tagTailL ≠ [])]
  decide

lemma permTagL_inj : Function.Injective permTagL := by
  intro a b h
  unfold permTagL at h
  rw [List.append_assoc, List.append_assoc] at h
  have h1 := List.append_cancel_left h
  have h2 := List.append_cancel_right h1
  have h3 := congrArg String.mk h2
  simpa using h3

lemma mem_joinTags {t : Chars} : ∀ {l : List Chars}, t ∈ l → t <:+: joinTags l := by
  intro l
  induction l with
  | nil => intro h; cases h
  | cons x xs ih =>
    intro h
    cases xs with
    | nil =>
      rw [List.mem_singleton] at h
      subst h
      exact List.infix_rfl
    | cons y ys =>
      rcases List.mem_cons.mp h with h1 | h2
      · subst h1
        show t <:+: t ++ sepL ++ joinTags (y :: ys)
        have h3 : t <+: t ++ (sepL ++ joinTags (y :: ys)) := List.prefix_append _ _
        rw [← List.append_assoc] at h3
        exact List.IsPrefix.isInfix h3
      · have h3 := ih h2
        show t <:+: x ++ sepL ++ joinTags (y :: ys)
        exact List.IsInfix.trans h3
          (List.IsSuffix.isInfix (List.suffix_append (x ++ sepL) (joinTags (y :: ys))))

lemma mem_toInject_iff {perms : List (String × Bool)} {content : Chars} {t : Chars} :
    t ∈ toInject perms content ↔
      ∃ n, (n, true) ∈ perms ∧ t = permTagL n ∧ includesSub content t = false := by
  unfold toInject
  constructor
  · intro h
    obtain ⟨hmap, hflt⟩ := List.mem_filter.mp h
    obtain ⟨⟨n, en⟩, hmemf, heq⟩ := List.mem_map.mp hmap
    obtain ⟨hmem, hen⟩ := List.mem_filter.mp hmemf
    simp only at hen heq
    subst hen
    refine ⟨n, hmem, heq.symm, ?_⟩
    simpa using hflt
  · rintro ⟨n, hmem, rfl, hinc⟩
    refine List.mem_filter.mpr ⟨?_, by simpa using hinc⟩
    exact List.mem_map.mpr ⟨(n, true), List.mem_filter.mpr ⟨hmem, rfl⟩, rfl⟩

lemma countElem_nil {α : Type} [DecidableEq α] (x : α) : countElem x ([] : List α) = 0 := rfl

lemma countElem_cons {α : Type} [DecidableEq α] (x a : α) (l : List α) :
    countElem x (a :: l) = (if a = x then 1 else 0) + countElem x l := by
  unfold countElem
  rw [List.filter_cons]
  by_cases h : a = x
  · simp [h, Nat.add_comm]
  · simp [h]

lemma countElem_eq_zero_of_not_mem {α : Type} [DecidableEq α] {x : α} :
    ∀ {l : List α}, x ∉ l → countElem x l = 0 := by
  intro l
  induction l with
  | nil => intro _; rfl
  | cons a l ih =>
    intro h
    rw [countElem_cons]
    have h1 : a ≠ x := fun he => h (he ▸ List.mem_cons_self a l)
    have h2 : x ∉ l := fun hm => h (List.mem_cons_of_mem a hm)
    simp [h1, ih h2]

lemma countElem_eq_one_of_nodup {α : Type} [DecidableEq α] {x : α} :
    ∀ {l : List α}, l.Nodup → x ∈ l → countElem x l = 1 := by
  intro l
  induction l with
  | nil => intro _ h; cases h
  | cons a l ih =>
    intro hnd hm
    rw [countElem_cons]
    obtain ⟨hna, hndl⟩ := List.nodup_cons.mp hnd
    rcases List.mem_cons.mp hm with h1 | h2
    · subst h1
      simp [countElem_eq_zero_of_not_mem hna]
    · have h1 : a ≠ x := fun he => hna (he ▸ h2)
      simp [h1, ih hndl h2]

lemma countElem_map_inj {α β : Type} [DecidableEq α] [DecidableEq β]
    {f : α → β} (hf : Function.Injective f) (x : α) :
    ∀ l : List α, countElem (f x) (l.map f) = countElem x l := by
  intro l
  induction l with
  | nil => rfl
  | cons a l ih =>
    rw [List.map_cons, countElem_cons, countElem_cons, ih]
    congr 1
    by_cases h : a = x
    · subst h; simp
    · have h2 : f a ≠ f x := fun he => h (hf he)
      simp [h, h2]

lemma countElem_filter_of {α : Type} [DecidableEq α] {p : α → Bool} {x : α}
    (hx : p x = true) : ∀ l : List α, countElem x (l.filter p) = countElem x l := by
  intro l
  induction l with
  | nil => rfl
  | cons a l ih =>
    by_cases h : a = x
    · subst h
      simp [List.filter_cons, hx, countElem_cons, ih]
    · cases hpa : p a
      · simp [List.filter_cons, hpa, countElem_cons, ih, h]
      · simp [List.filter_cons, hpa, countElem_cons, ih, h]

/-- With distinct mapping keys, a still-missing enabled permission's tag is
listed exactly once in the injected block. -/
lemma countElem_toInject {perms : List (String × Bool)} {content : Chars} {n : String}
    (hnd : (perms.map Prod.fst).Nodup)
    (hmem : (n, true) ∈ perms)
    (hninc : includesSub content (permTagL n) = false) :
    countElem (permTagL n) (toInject perms content) = 1 := by
  unfold toInject
  rw [countElem_filter_of (by simpa using hninc)]
  rw [show (fun p : String × Bool => permTagL p.1) = permTagL ∘ Prod.fst from rfl]
  rw [← List.map_map permTagL Prod.fst]
  rw [countElem_map_inj permTagL_inj]
  have hsub : List.Sublist ((perms.filter (fun p => p.2)).map Prod.fst) (perms.map Prod.fst) :=
    List.Sublist.map Prod.fst (List.filter_sublist perms)
  refine countElem_eq_one_of_nodup (List.Nodup.sublist hsub hnd) ?_
  exact List.mem_map.mpr ⟨(n, true), List.mem_filter.mpr ⟨hmem, rfl⟩, rfl⟩

/-- C1: when the manifest contains the closing tag (at last occurrence `idx`),
step 5 injects exactly the tags of enabled permissions not already present
verbatim, as a block immediately before position `idx`, leaving the content
before `idx` and from `idx` onward (the closing tag included) unchanged; with
distinct mapping keys each such permission contributes exactly one tag line. -/
theorem claim1_injects_before_last_closing
    (perms : List (String × Bool)) (content : Chars) (idx : Nat)
    (h : lastIndexOf closingTagL content = some idx) :
    (matchesAt closingTagL content idx = true ∧
      ∀ j, idx < j → matchesAt closingTagL content j = false) ∧
    (∀ t, t ∈ toInject perms content ↔
      ∃ n, (n, true) ∈ perms ∧ t = permTagL n ∧ includesSub content t = false) ∧
    (toInject perms content ≠ [] →
      step5Core perms content =
        some (content.take idx ++ headerL ++ joinTags (toInject perms content) ++ ['\n'] ++
          content.drop idx)) ∧
    (toInject perms content = [] → step5Core perms content = none) ∧
    ((perms.map Prod.fst).Nodup →
      ∀ n, (n, true) ∈ perms → includesSub content (permTagL n) = false →
        countElem (permTagL n) (toInject perms content) = 1) := by
  refine ⟨lastIndexOf_spec (by decide) h, fun t => mem_toInject_iff, ?_, ?_,
    fun hnd n hmem hninc => countElem_toInject hnd hmem hninc⟩
  · intro hne
    unfold step5Core
    rw [h]
    have hie : (toInject perms content).isEmpty = false := by
      cases hti : toInject perms content
      · exact absurd hti hne
      · rfl
    simp [hie]
  · intro he
    unfold step5Core
    rw [h, he]
    rfl

/-- C1 witness: a concrete injection into `<m></manifest>`. -/
theorem claim1_witness :
    lastIndexOf closingTagL "<m></manifest>".data = some 3 ∧
    step5Core [("android.permission.INTERNET", true)] "<m></manifest>".data =
      some ("<m></manifest>".data.take 3 ++ headerL ++
        joinTags (toInject [("android.permission.INTERNET", true)] "<m></manifest>".data) ++
        ['\n'] ++ "<m></manifest>".data.drop 3) :=
  ⟨by decide,
    (claim1_injects_before_last_closing [("android.permission.INTERNET", true)]
      "<m></manifest>".data 3 (by decide)).2.2.1 (by decide)⟩

/-- C10: when every enabled permission's tag is already present (the list of
tags to inject is empty) step 5 performs no write at all, and an undefined
permissions mapping is handled as the empty mapping without error (and never
writes). -/
theorem claim10_empty_injection_no_write
    (permissions : Option (List (String × Bool))) (content : Chars) :
    (toInject (permissions.getD []) content = [] → step5Model permissions content = none) ∧
    step5Model none content = none := by
  constructor
  · intro h
    unfold step5Model step5Core
    cases hli : lastIndexOf closingTagL content
    · rfl
    · rw [h]
      rfl
  · unfold step5Model step5Core
    cases hli : lastIndexOf closingTagL content
    · rfl
    · rfl

/-- C10 witness: a manifest already containing the only enabled tag is not
rewritten. -/
theorem claim10_witness :
    toInject ((some [("p", true)]).getD [])
      (permTagL "p" ++ "</manifest>".data) = [] ∧
    step5Model (some [("p", true)]) (permTagL "p" ++ "</manifest>".data) = none :=
  ⟨by decide,
    (claim10_empty_injection_no_write (some [("p", true)])
      (permTagL "p" ++ "</manifest>".data)).1 (by decide)⟩

set_option maxRecDepth 100000 in
/-- C2 counterexample: the claim fails as stated.  With
`perms = p, q, "a</manifest>b"` all enabled and a manifest that already
contains the `p` tag twice and whose only `</manifest>` occurrence lies inside
the tag of the pathological permission name `a</manifest>b`, one application
leaves the `p` tag present twice (not "exactly once"), and the second
application rewrites the file again (the first splice destroyed the
pathological tag's occurrence), so applying twice does not yield the same
manifest as applying once. -/
theorem claim2_counterexample :
    includesSub (permTagL "p" ++ permTagL "p" ++ permTagL "a</manifest>b") closingTagL = true ∧
    countOcc (permTagL "p")
      (applyStep [("p", true), ("q", true), ("a</manifest>b", true)]
        (permTagL "p" ++ permTagL "p" ++ permTagL "a</manifest>b")) = 2 ∧
    applyStep [("p", true), ("q", true), ("a</manifest>b", true)]
      (applyStep [("p", true), ("q", true), ("a</manifest>b", true)]
        (permTagL "p" ++ permTagL "p" ++ permTagL "a</manifest>b")) ≠
      applyStep [("p", true), ("q", true), ("a</manifest>b", true)]
        (permTagL "p" ++ permTagL "p" ++ permTagL "a</manifest>b") := by
  refine ⟨by decide, by decide, ?_⟩
  decide

/-- C2 (amended): provided no enabled permission's tag contains the closing
tag (true of every real permission name), after one application of step 5
every enabled permission's tag is present in the manifest; the second
application with the same configuration performs no write, so applying twice
equals applying once and the second application introduces no duplicate (or
any new) occurrence of any tag. -/
theorem claim2_second_run_no_write
    (perms : List (String × Bool)) (content : Chars)
    (hben : ∀ n, (n, true) ∈ perms → includesSub (permTagL n) closingTagL = false)
    (hcl : includesSub content closingTagL = true) :
    (∀ n, (n, true) ∈ perms →
      includesSub (applyStep perms content) (permTagL n) = true) ∧
    step5Core perms (applyStep perms content) = none ∧
    applyStep perms (applyStep perms content) = applyStep perms content ∧
    (∀ t, countOcc t (applyStep perms (applyStep perms content)) =
      countOcc t (applyStep perms content)) := by
  have hclne : closingTagL ≠ [] := by decide
  have hsome : (lastIndexOf closingTagL content).isSome = true := hcl
  obtain ⟨idx, hidx⟩ := Option.isSome_iff_exists.mp hsome
  have hm_idx : matchesAt closingTagL content idx = true := (lastIndexOf_spec hclne hidx).1
  cases hCore : step5Core perms content with
  | none =>
    have happ : applyStep perms content = content := by
      unfold applyStep
      rw [hCore]
      rfl
    have htie : toInject perms content = [] := by
      unfold step5Core at hCore
      rw [hidx] at hCore
      cases hti : toInject perms content
      · rfl
      · rw [hti] at hCore
        simp at hCore
    have h1 : ∀ n, (n, true) ∈ perms → includesSub content (permTagL n) = true := by
      intro n hmem
      cases hI : includesSub content (permTagL n)
      · have : permTagL n ∈ toInject perms content :=
          mem_toInject_iff.mpr ⟨n, hmem, rfl, hI⟩
        rw [htie] at this
        cases this
      · rfl
    simp only [happ]
    exact ⟨h1, hCore, trivial, fun t => trivial⟩
  | some out =>
    have happ : applyStep perms content = out := by
      unfold applyStep
      rw [hCore]
      rfl
    have hout : out = content.take idx ++
        (headerL ++ joinTags (toInject perms content) ++ ['\n']) ++ content.drop idx := by
      unfold step5Core at hCore
      rw [hidx] at hCore
      cases hti : toInject perms content with
      | nil =>
        rw [hti] at hCore
        simp at hCore
      | cons a l =>
        rw [hti] at hCore
        simp only [List.isEmpty_cons] at hCore
        rw [if_neg (by simp)] at hCore
        have := Option.some.inj hCore
        rw [← this, ← hti]
        simp [List.append_assoc]
    have hpart1 : ∀ n, (n, true) ∈ perms → includesSub out (permTagL n) = true := by
      intro n hmem
      have hni : ¬ closingTagL <:+: permTagL n :=
        (includesSub_false_iff hclne).mp (hben n hmem)
      cases hI : includesSub content (permTagL n)
      · -- not present before: the tag is in the injected block
        have hin : permTagL n ∈ toInject perms content :=
          mem_toInject_iff.mpr ⟨n, hmem, rfl, hI⟩
        have hjoin : permTagL n <:+: joinTags (toInject perms content) := mem_joinTags hin
        refine (includesSub_iff (permTagL_ne_nil n)).mpr ?_
        refine List.IsInfix.trans hjoin ?_
        refine ⟨content.take idx ++ headerL, ['\n'] ++ content.drop idx, ?_⟩
        rw [hout]
        simp [List.append_assoc]
      · -- present before: the occurrence survives the splice
        have ht : permTagL n <:+: content := (includesSub_iff (permTagL_ne_nil n)).mp hI
        refine (includesSub_iff (permTagL_ne_nil n)).mpr ?_
        rw [hout]
        exact inf_splice hm_idx (permTag_getLast n) hni ht
    have hclout : closingTagL <:+: out := by
      have h2 : closingTagL <+: content.drop idx := matchesAt_iff.mp hm_idx
      refine List.IsInfix.trans (List.IsPrefix.isInfix h2) ?_
      rw [hout]
      exact List.IsSuffix.isInfix (List.suffix_append _ _)
    have hpart2 : step5Core perms out = none := by
      unfold step5Core
      cases hli2 : lastIndexOf closingTagL out with
      | none =>
        rfl
      | some idx2 =>
        have htie2 : toInject perms out = [] := by
          cases hti2 : toInject perms out with
          | nil => rfl
          | cons a l =>
            exfalso
            have hin : a ∈ toInject perms out := by rw [hti2]; exact List.mem_cons_self a l
            obtain ⟨n, hmem, heq, hIncF⟩ := mem_toInject_iff.mp hin
            rw [heq] at hIncF
            rw [hpart1 n hmem] at hIncF
            cases hIncF
        rw [htie2]
        rfl
    rw [happ]
    refine ⟨hpart1, hpart2, ?_, ?_⟩
    · unfold applyStep
      rw [hpart2]
      rfl
    · intro t
      rw [show applyStep perms out = out from by unfold applyStep; rw [hpart2]; rfl]

/-! ## Lemmas about JS object update (`setA` / `lookupA`) -/

lemma lookupA_setA_self {α : Type} (fs : List (String × α)) (k : String) (v : α) :
    lookupA (setA fs k v) k = some v := by
  induction fs with
  | nil => simp [setA, lookupA]
  | cons a rest ih =>
    obtain ⟨k2, v2⟩ := a
    unfold setA
    by_cases h : k2 = k
    · rw [if_pos h]
      unfold lookupA
      rw [if_pos h]
    · rw [if_neg h]
      unfold lookupA
      rw [if_neg h]
      exact ih

lemma lookupA_setA_ne {α : Type} {fs : List (String × α)} {k k2 : String} {v : α}
    (h : k2 ≠ k) : lookupA (setA fs k v) k2 = lookupA fs k2 := by
  induction fs with
  | nil =>
    unfold setA lookupA
    rw [if_neg (fun he => h he.symm)]
    rfl
  | cons a rest ih =>
    obtain ⟨k3, v3⟩ := a
    unfold setA
    by_cases h3 : k3 = k
    · rw [if_pos h3]
      unfold lookupA
      rw [if_neg (fun he : k3 = k2 => h (h3 ▸ he ▸ rfl)), if_neg (fun he : k3 = k2 => h (h3 ▸ he ▸ rfl))]
    · rw [if_neg h3]
      unfold lookupA
      by_cases h4 : k3 = k2
      · rw [if_pos h4, if_pos h4]
      · rw [if_neg h4, if_neg h4]
        exact ih

/-! ## Lemmas about step 0's configuration update -/

lemma capAfterServer_lookup_other {app : AppConfig} {cap : JObj} {k : String}
    (h1 : k ≠ "appId") (h2 : k ≠ "appName") (h3 : k ≠ "server") :
    lookupA (capAfterServer app cap) k = lookupA cap k := by
  simp only [capAfterServer]
  rw [lookupA_setA_ne h3, lookupA_setA_ne h2, lookupA_setA_ne h1]

lemma capAfterServer_appId (app : AppConfig) (cap : JObj) :
    lookupA (capAfterServer app cap) "appId" = some (.jstr app.appId) := by
  simp only [capAfterServer]
  rw [lookupA_setA_ne (by decide), lookupA_setA_ne (by decide), lookupA_setA_self]

lemma capAfterServer_appName (app : AppConfig) (cap : JObj) :
    lookupA (capAfterServer app cap) "appName" = some (.jstr app.appName) := by
  simp only [capAfterServer]
  rw [lookupA_setA_ne (by decide), lookupA_setA_self]

lemma capAfterServer_server (app : AppConfig) (cap : JObj) :
    lookupA (capAfterServer app cap) "server" =
      some (.jobj (setA (setA (spreadFields (serverBase
          (setA (setA cap "appId" (.jstr app.appId)) "appName" (.jstr app.appName))))
        "url" (.jstr app.webUrl)) "cleartext" (.jbool true))) := by
  simp only [capAfterServer]
  rw [lookupA_setA_self]

lemma updateCap_lookup_ne_bg {app : AppConfig} {cap : JObj} {k : String}
    (hk : k ≠ "backgroundColor") :
    lookupA (updateCap app cap) k = lookupA (capAfterServer app cap) k := by
  simp only [updateCap]
  cases app.backgroundColor with
  | none => rfl
  | some bc =>
    cases hbc : bc == "" with
    | true => simp [hbc]
    | false => simp [hbc, lookupA_setA_ne hk]

lemma updateCap_bg_false {app : AppConfig} {cap : JObj}
    (h : appBgTruthy app.backgroundColor = false) :
    updateCap app cap = capAfterServer app cap := by
  simp only [updateCap]
  cases hbg : app.backgroundColor with
  | none => rfl
  | some bc =>
    rw [hbg] at h
    have hbc : (bc == "") = true := by
      simpa [appBgTruthy] using h
    simp [hbc]

lemma updateCap_bg_some {app : AppConfig} {cap : JObj} {bc : String}
    (hbg : app.backgroundColor = some bc) (hbc : (bc == "") = false) :
    updateCap app cap = setA (capAfterServer app cap) "backgroundColor" (.jstr bc) := by
  simp only [updateCap]
  rw [hbg]
  simp [hbc]

/-- Core of step 0's overwrite behaviour, for any app and bridge config. -/
lemma updateCap_main (app : AppConfig) (cap : JObj) :
    lookupA (updateCap app cap) "appId" = some (.jstr app.appId) ∧
    lookupA (updateCap app cap) "appName" = some (.jstr app.appName) ∧
    ∃ sf, lookupA (updateCap app cap) "server" = some (.jobj sf) ∧
      lookupA sf "url" = some (.jstr app.webUrl) ∧
      lookupA sf "cleartext" = some (.jbool true) := by
  refine ⟨?_, ?_, ?_⟩
  · rw [updateCap_lookup_ne_bg (by decide), capAfterServer_appId]
  · rw [updateCap_lookup_ne_bg (by decide), capAfterServer_appName]
  · refine ⟨setA (setA (spreadFields (serverBase
        (setA (setA cap "appId" (.jstr app.appId)) "appName" (.jstr app.appName))))
      "url" (.jstr app.webUrl)) "cleartext" (.jbool true), ?_, ?_, ?_⟩
    · rw [updateCap_lookup_ne_bg (by decide), capAfterServer_server]
    · rw [lookupA_setA_ne (by decide), lookupA_setA_self]
    · rw [lookupA_setA_self]

/-- C4: after step 0 (when the bridge configuration file exists and parses to
an object), the bridge configuration's `appId` and `appName` equal the app
configuration's, `server.url` equals the app configuration's `webUrl`,
`server.cleartext` is `true`, and when the app configuration provides a
(truthy, i.e. non-empty) `backgroundColor` it is copied over; consequently
after any further run the server URL equals the most recent app
configuration's URL. -/
theorem claim4_config_overwrite (app : AppConfig) (cap : JObj) :
    lookupA (updateCap app cap) "appId" = some (.jstr app.appId) ∧
    lookupA (updateCap app cap) "appName" = some (.jstr app.appName) ∧
    (∃ sf, lookupA (updateCap app cap) "server" = some (.jobj sf) ∧
      lookupA sf "url" = some (.jstr app.webUrl) ∧
      lookupA sf "cleartext" = some (.jbool true)) ∧
    (∀ bc, app.backgroundColor = some bc → bc ≠ "" →
      lookupA (updateCap app cap) "backgroundColor" = some (.jstr bc)) ∧
    (∀ appPrev capPrev, ∃ sf,
      lookupA (updateCap app (updateCap appPrev capPrev)) "server" = some (.jobj sf) ∧
      lookupA sf "url" = some (.jstr app.webUrl)) := by
  obtain ⟨h1, h2, h3⟩ := updateCap_main app cap
  refine ⟨h1, h2, h3, ?_, ?_⟩
  · intro bc hbg hne
    have hbc : (bc == "") = false := by
      cases hb2 : bc == ""
      · rfl
      · exact absurd (by simpa using hb2) hne
    rw [updateCap_bg_some hbg hbc, lookupA_setA_self]
  · intro appPrev capPrev
    obtain ⟨-, -, sf, hs1, hs2, -⟩ := updateCap_main app (updateCap appPrev capPrev)
    exact ⟨sf, hs1, hs2⟩

/-- C4 witness: a concrete configuration overwrite. -/
theorem claim4_witness :
    (AppConfig.mk "com.x" "X" "https://x" (some "#000") none none).backgroundColor =
      some "#000" ∧
    ("#000" : String) ≠ "" ∧
    lookupA (updateCap (AppConfig.mk "com.x" "X" "https://x" (some "#000") none none)
      [("server", .jobj [("hostname", .jstr "h")])]) "backgroundColor" =
        some (.jstr "#000") :=
  ⟨rfl, by decide,
    (claim4_config_overwrite (AppConfig.mk "com.x" "X" "https://x" (some "#000") none none)
      [("server", .jobj [("hostname", .jstr "h")])]).2.2.2.1 "#000" rfl (by decide)⟩

/-- C9: step 0 preserves every top-level bridge-configuration field other
than `appId`, `appName`, `server` and `backgroundColor`; inside an existing
server object every key other than `url` and `cleartext` is preserved by the
spread; and an absent-or-falsy app `backgroundColor` leaves the bridge
configuration's `backgroundColor` untouched. -/
theorem claim9_update_frame (app : AppConfig) (cap : JObj) :
    (∀ k, k ≠ "appId" → k ≠ "appName" → k ≠ "server" → k ≠ "backgroundColor" →
      lookupA (updateCap app cap) k = lookupA cap k) ∧
    (∀ sf, lookupA cap "server" = some (.jobj sf) →
      ∃ sf2, lookupA (updateCap app cap) "server" = some (.jobj sf2) ∧
        ∀ k, k ≠ "url" → k ≠ "cleartext" → lookupA sf2 k = lookupA sf k) ∧
    (appBgTruthy app.backgroundColor = false →
      lookupA (updateCap app cap) "backgroundColor" = lookupA cap "backgroundColor") := by
  refine ⟨?_, ?_, ?_⟩
  · intro k h1 h2 h3 h4
    rw [updateCap_lookup_ne_bg h4, capAfterServer_lookup_other h1 h2 h3]
  · intro sf hsf
    have hc2 : lookupA (setA (setA cap "appId" (.jstr app.appId)) "appName"
        (.jstr app.appName)) "server" = some (.jobj sf) := by
      rw [lookupA_setA_ne (by decide), lookupA_setA_ne (by decide)]
      exact hsf
    have hbase : serverBase (setA (setA cap "appId" (.jstr app.appId)) "appName"
        (.jstr app.appName)) = .jobj sf := by
      unfold serverBase
      rw [hc2]
      rfl
    refine ⟨setA (setA sf "url" (.jstr app.webUrl)) "cleartext" (.jbool true), ?_, ?_⟩
    · rw [updateCap_lookup_ne_bg (by decide), capAfterServer_server, hbase]
      rfl
    · intro k h1 h2
      rw [lookupA_setA_ne h2, lookupA_setA_ne h1]
  · intro h
    rw [updateCap_bg_false h,
      capAfterServer_lookup_other (by decide) (by decide) (by decide)]

/-- C9 witness: a concrete frame check — an unrelated key and an existing
`backgroundColor` survive a run whose app config has no `backgroundColor`. -/
theorem claim9_witness :
    appBgTruthy (AppConfig.mk "com.x" "X" "https://x" none none none).backgroundColor = false ∧
    ("extra" : String) ≠ "appId" ∧
    lookupA (updateCap (AppConfig.mk "com.x" "X" "https://x" none none none)
      [("extra", .jnum 7), ("backgroundColor", .jstr "#fff")]) "extra" =
      lookupA [(("extra" : String), JVal.jnum 7), ("backgroundColor", JVal.jstr "#fff")] "extra" ∧
    lookupA (updateCap (AppConfig.mk "com.x" "X" "https://x" none none none)
      [("extra", .jnum 7), ("backgroundColor", .jstr "#fff")]) "backgroundColor" =
      lookupA [(("extra" : String), JVal.jnum 7), ("backgroundColor", JVal.jstr "#fff")]
        "backgroundColor" :=
  ⟨rfl, by decide,
    (claim9_update_frame (AppConfig.mk "com.x" "X" "https://x" none none none)
      [("extra", .jnum 7), ("backgroundColor", .jstr "#fff")]).1 "extra"
      (by decide) (by decide) (by decide) (by decide),
    (claim9_update_frame (AppConfig.mk "com.x" "X" "https://x" none none none)
      [("extra", .jnum 7), ("backgroundColor", .jstr "#fff")]).2.2 rfl⟩

/-! ## Lemmas about step 0.5's plugin reconciliation -/

lemma applyCmd_ne {ver : String → String} {st : String → Option String} {c : NpmCmd}
    {p : String} (h : cmdName c ≠ p) : applyCmd ver st c p = st p := by
  cases c with
  | install q =>
    unfold applyCmd
    exact if_neg (fun he => h (by simpa [cmdName] using he.symm))
  | uninstall q =>
    unfold applyCmd
    exact if_neg (fun he => h (by simpa [cmdName] using he.symm))

lemma applyCmds_not_mentioned {ver : String → String} {p : String} :
    ∀ (cmds : List NpmCmd) (st : String → Option String),
      (∀ c ∈ cmds, cmdName c ≠ p) → applyCmds ver st cmds p = st p := by
  intro cmds
  induction cmds with
  | nil => intro st _; rfl
  | cons c rest ih =>
    intro st h
    unfold applyCmds at ih ⊢
    rw [List.foldl_cons]
    rw [ih (applyCmd ver st c) (fun c2 hc2 => h c2 (List.mem_cons_of_mem c hc2))]
    exact applyCmd_ne (h c (List.mem_cons_self c rest))

lemma mem_commandsFor {ins : String → Option String} {ps : List (String × Bool)} {c : NpmCmd}
    (h : c ∈ commandsFor ins ps) :
    ∃ pe ∈ ps,
      (if pe.2 && !(truthyVal (ins pe.1)) then some (NpmCmd.install pe.1)
       else if !pe.2 && truthyVal (ins pe.1) then some (NpmCmd.uninstall pe.1)
       else none) = some c := by
  exact List.mem_filterMap.mp h

lemma commandsFor_names {ins : String → Option String} {ps : List (String × Bool)} {c : NpmCmd}
    (h : c ∈ commandsFor ins ps) : cmdName c ∈ ps.map Prod.fst := by
  obtain ⟨pe, hpe, heq⟩ := mem_commandsFor h
  refine List.mem_map.mpr ⟨pe, hpe, ?_⟩
  by_cases h1 : (pe.2 && !(truthyVal (ins pe.1))) = true
  · rw [if_pos h1] at heq
    cases heq
    rfl
  · rw [if_neg h1] at heq
    by_cases h2 : (!pe.2 && truthyVal (ins pe.1)) = true
    · rw [if_pos h2] at heq
      cases heq
      rfl
    · rw [if_neg h2] at heq
      cases heq

lemma nodup_key_unique {ps : List (String × Bool)} (hnd : (ps.map Prod.fst).Nodup)
    {p : String} {a b : Bool} (ha : (p, a) ∈ ps) (hb : (p, b) ∈ ps) : a = b := by
  induction ps with
  | nil => cases ha
  | cons x rest ih =>
    rw [List.map_cons, List.nodup_cons] at hnd
    obtain ⟨hx, hrest⟩ := hnd
    rcases List.mem_cons.mp ha with ha1 | ha1 <;> rcases List.mem_cons.mp hb with hb1 | hb1
    · exact congrArg Prod.snd (ha1.trans hb1.symm)
    · exfalso
      apply hx
      rw [← ha1]
      exact List.mem_map.mpr ⟨(p, b), hb1, rfl⟩
    · exfalso
      apply hx
      rw [← hb1]
      exact List.mem_map.mpr ⟨(p, a), ha1, rfl⟩
    · exact ih hrest ha1 hb1

lemma applyCmds_cons (ver : String → String) (st : String → Option String)
    (c : NpmCmd) (cmds : List NpmCmd) :
    applyCmds ver st (c :: cmds) = applyCmds ver (applyCmd ver st c) cmds := by
  unfold applyCmds
  rw [List.foldl_cons]

lemma commandsFor_cons_install {ins : String → Option String} {a : String × Bool}
    {rest : List (String × Bool)} (h : (a.2 && !(truthyVal (ins a.1))) = true) :
    commandsFor ins (a :: rest) = NpmCmd.install a.1 :: commandsFor ins rest := by
  unfold commandsFor
  rw [List.filterMap_cons, if_pos h]

lemma commandsFor_cons_uninstall {ins : String → Option String} {a : String × Bool}
    {rest : List (String × Bool)} (h1 : ¬ (a.2 && !(truthyVal (ins a.1))) = true)
    (h2 : (!a.2 && truthyVal (ins a.1)) = true) :
    commandsFor ins (a :: rest) = NpmCmd.uninstall a.1 :: commandsFor ins rest := by
  unfold commandsFor
  rw [List.filterMap_cons, if_neg h1, if_pos h2]

lemma commandsFor_cons_none {ins : String → Option String} {a : String × Bool}
    {rest : List (String × Bool)} (h1 : ¬ (a.2 && !(truthyVal (ins a.1))) = true)
    (h2 : ¬ (!a.2 && truthyVal (ins a.1)) = true) :
    commandsFor ins (a :: rest) = commandsFor ins rest := by
  unfold commandsFor
  rw [List.filterMap_cons, if_neg h1, if_neg h2]

/-- Value of the dependency state at a configured plugin after the commands
issued by step 0.5 have been applied: the command decided from the snapshot
wins, and no other command touches the key (distinct keys). -/
lemma applyCmds_commandsFor {ver : String → String} {ins : String → Option String} :
    ∀ (ps : List (String × Bool)) (st : String → Option String) (p : String) (en : Bool),
      (ps.map Prod.fst).Nodup → (p, en) ∈ ps →
      applyCmds ver st (commandsFor ins ps) p =
        if en && !(truthyVal (ins p)) then some (ver p)
        else if !en && truthyVal (ins p) then none
        else st p := by
  intro ps
  induction ps with
  | nil => intro st p en _ h; cases h
  | cons a rest ih =>
    intro st p en hnd hmem
    obtain ⟨q, e⟩ := a
    rw [List.map_cons, List.nodup_cons] at hnd
    obtain ⟨hq, hndr⟩ := hnd
    by_cases hqp : q = p
    · subst hqp
      have he : e = en := by
        rcases List.mem_cons.mp hmem with h1 | h1
        · exact (congrArg Prod.snd h1).symm
        · exact absurd (List.mem_map.mpr ⟨(q, en), h1, rfl⟩) hq
      subst he
      have hrest_names : ∀ c ∈ commandsFor ins rest, cmdName c ≠ q := by
        intro c hc hne
        exact hq (hne ▸ commandsFor_names hc)
      by_cases h1 : (e && !(truthyVal (ins q))) = true
      · rw [commandsFor_cons_install h1, applyCmds_cons,
          applyCmds_not_mentioned (commandsFor ins rest) _ hrest_names, if_pos h1]
        simp [applyCmd]
      · by_cases h2 : (!e && truthyVal (ins q)) = true
        · rw [commandsFor_cons_uninstall h1 h2, applyCmds_cons,
            applyCmds_not_mentioned (commandsFor ins rest) _ hrest_names,
            if_neg h1, if_pos h2]
          simp [applyCmd]
        · rw [commandsFor_cons_none h1 h2,
            applyCmds_not_mentioned (commandsFor ins rest) _ hrest_names,
            if_neg h1, if_neg h2]
    · have hmem2 : (p, en) ∈ rest := by
        rcases List.mem_cons.mp hmem with h1 | h1
        · exact absurd (show p = q from congrArg Prod.fst h1) (fun hpq => hqp hpq.symm)
        · exact h1
      by_cases h1 : (e && !(truthyVal (ins q))) = true
      · rw [commandsFor_cons_install h1, applyCmds_cons,
          ih _ p en hndr hmem2, applyCmd_ne (by simpa [cmdName] using hqp)]
      · by_cases h2 : (!e && truthyVal (ins q)) = true
        · rw [commandsFor_cons_uninstall h1 h2, applyCmds_cons,
            ih _ p en hndr hmem2, applyCmd_ne (by simpa [cmdName] using hqp)]
        · rw [commandsFor_cons_none h1 h2, ih _ p en hndr hmem2]

/-- C3 counterexample: the claim fails as stated.  `package.json` may record a
dependency with an empty version string, which is falsy in JS, so
`!!installed[plugin]` reports the plugin as not installed: a plugin with flag
`false` that is present with version `""` triggers no `npm uninstall` and
remains present in the combined dependency list after the step. -/
theorem claim3_counterexample :
    commandsFor (fun k => mergedLookup [("p", "")] [] k) [("p", false)] = [] ∧
    mergedLookup [("p", "")] [] "p" = some "" ∧
    ¬ (applyCmds (fun _ => "1.0.0") (fun k => mergedLookup [("p", "")] [] k)
        (commandsFor (fun k => mergedLookup [("p", "")] [] k) [("p", false)]) "p" = none) := by
  refine ⟨rfl, rfl, ?_⟩
  intro h
  cases h

/-- C3 (amended): assuming the issued install/uninstall commands succeed with
their standard effect on the dependency list, and provided no configured
plugin is recorded with an empty (falsy) version string, after step 0.5 every
plugin with flag `true` is present in the combined dependency list, every
plugin with flag `false` is absent, and a plugin already in its desired state
triggers no command. -/
theorem claim3_plugin_reconciliation (ver : String → String)
    (st0 : String → Option String) (ps : List (String × Bool))
    (hnd : (ps.map Prod.fst).Nodup)
    (hclean : ∀ p en, (p, en) ∈ ps → st0 p ≠ some "") :
    (∀ p, (p, true) ∈ ps →
      (applyCmds ver st0 (commandsFor st0 ps) p).isSome = true) ∧
    (∀ p, (p, false) ∈ ps → applyCmds ver st0 (commandsFor st0 ps) p = none) ∧
    (∀ p en, (p, en) ∈ ps → truthyVal (st0 p) = en →
      NpmCmd.install p ∉ commandsFor st0 ps ∧
      NpmCmd.uninstall p ∉ commandsFor st0 ps) := by
  refine ⟨?_, ?_, ?_⟩
  · intro p hmem
    rw [applyCmds_commandsFor ps st0 p true hnd hmem]
    cases ht : truthyVal (st0 p)
    · simp [ht]
    · have hgoal : (st0 p).isSome = true := by
        cases hst : st0 p
        · rw [hst] at ht; cases ht
        · rfl
      simpa [ht] using hgoal
  · intro p hmem
    rw [applyCmds_commandsFor ps st0 p false hnd hmem]
    cases ht : truthyVal (st0 p)
    · have hnone : st0 p = none := by
        cases hst : st0 p with
        | none => rfl
        | some s =>
          have hs : s = "" := by
            rw [hst] at ht
            simpa [truthyVal] using ht
          exact absurd (by rw [hst, hs]) (hclean p false hmem)
      simpa [ht] using hnone
    · simp [ht]
  · intro p en hmem hdes
    constructor
    · intro hin
      obtain ⟨pe, hpe, heq⟩ := mem_commandsFor hin
      by_cases h1 : (pe.2 && !(truthyVal (st0 pe.1))) = true
      · rw [if_pos h1] at heq
        have hname : pe.1 = p := by
          have := Option.some.inj heq
          exact congrArg cmdName this
        obtain ⟨p1, e1⟩ := pe
        simp only at hname
        subst hname
        have he1 : e1 = en := nodup_key_unique hnd hpe hmem
        subst he1
        simp only at h1
        obtain ⟨hena, htr⟩ := Bool.and_eq_true_iff.mp h1
        rw [hdes] at htr
        rw [hena] at htr
        cases htr
      · rw [if_neg h1] at heq
        by_cases h2 : (!pe.2 && truthyVal (st0 pe.1)) = true
        · rw [if_pos h2] at heq
          cases heq
        · rw [if_neg h2] at heq
          cases heq
    · intro hin
      obtain ⟨pe, hpe, heq⟩ := mem_commandsFor hin
      by_cases h1 : (pe.2 && !(truthyVal (st0 pe.1))) = true
      · rw [if_pos h1] at heq
        cases heq
      · rw [if_neg h1] at heq
        by_cases h2 : (!pe.2 && truthyVal (st0 pe.1)) = true
        · rw [if_pos h2] at heq
          have hname : pe.1 = p := by
            have := Option.some.inj heq
            exact congrArg cmdName this
          obtain ⟨p1, e1⟩ := pe
          simp only at hname
          subst hname
          have he1 : e1 = en := nodup_key_unique hnd hpe hmem
          subst he1
          simp only at h2
          obtain ⟨hena, htr⟩ := Bool.and_eq_true_iff.mp h2
          rw [hdes] at htr
          rw [htr] at hena
          cases hena
        · rw [if_neg h2] at heq
          cases heq

/-- C3 witness: a concrete reconciliation — enabled-and-missing `b` gets
installed, disabled-and-missing `a` stays absent and triggers no command. -/
theorem claim3_witness :
    (applyCmds (fun _ => "1.0.0") (fun _ => none)
      (commandsFor (fun _ => none) [("a", false), ("b", true)]) "b").isSome = true ∧
    applyCmds (fun _ => "1.0.0") (fun _ => none)
      (commandsFor (fun _ => none) [("a", false), ("b", true)]) "a" = none ∧
    NpmCmd.uninstall "a" ∉ commandsFor (fun _ => none) [("a", false), ("b", true)] :=
  ⟨(claim3_plugin_reconciliation (fun _ => "1.0.0") (fun _ => none)
      [("a", false), ("b", true)] (by decide)
      (fun _ _ _ h => by cases h)).1 "b" (by decide),
   (claim3_plugin_reconciliation (fun _ => "1.0.0") (fun _ => none)
      [("a", false), ("b", true)] (by decide)
      (fun _ _ _ h => by cases h)).2.1 "a" (by decide),
   ((claim3_plugin_reconciliation (fun _ => "1.0.0") (fun _ => none)
      [("a", false), ("b", true)] (by decide)
      (fun _ _ _ h => by cases h)).2.2 "a" false (by decide) rfl).2⟩

/-! ## Step 4: resolution and generation of `local.properties` -/

lemma sdkLine_data (p : String) :
    (sdkLine p).data = "sdk.dir=".data ++ escBsL p.data ++ ['\n'] := by
  unfold sdkLine
  rw [String.data_append, String.data_append]

/-- C7: the SDK path is resolved from `ANDROID_HOME` if set and non-empty,
else from `ANDROID_SDK_ROOT`, else from the platform default (`LOCALAPPDATA`
on Windows, `HOME` on macOS, nothing elsewhere; an unset base variable makes
`path.join` throw); the properties file is generated exactly when the
resolved path exists on the filesystem, and its content is the single line
`sdk.dir=<path>` with backslashes doubled and a trailing newline. -/
theorem claim7_local_properties
    (androidHome androidSdkRoot localAppData home : Option String)
    (plat : Platform) (fsx : String → Bool) :
    (∀ p, truthyEnvVar androidHome = some p →
      resolveSdkPath androidHome androidSdkRoot localAppData home plat = .ok (some p)) ∧
    (truthyEnvVar androidHome = none → ∀ p, truthyEnvVar androidSdkRoot = some p →
      resolveSdkPath androidHome androidSdkRoot localAppData home plat = .ok (some p)) ∧
    (truthyEnvVar androidHome = none → truthyEnvVar androidSdkRoot = none →
      (plat = .win32 → ∀ l, localAppData = some l →
        resolveSdkPath androidHome androidSdkRoot localAppData home plat =
          .ok (some (winSdkJoin l))) ∧
      (plat = .win32 → localAppData = none →
        resolveSdkPath androidHome androidSdkRoot localAppData home plat = .error ()) ∧
      (plat = .darwin → ∀ hm, home = some hm →
        resolveSdkPath androidHome androidSdkRoot localAppData home plat =
          .ok (some (macSdkJoin hm))) ∧
      (plat = .other →
        resolveSdkPath androidHome androidSdkRoot localAppData home plat = .ok none)) ∧
    (∀ p, resolveSdkPath androidHome androidSdkRoot localAppData home plat = .ok (some p) →
      (fsx p = true →
        step4Gen androidHome androidSdkRoot localAppData home plat fsx =
          .ok (some (sdkLine p))) ∧
      (fsx p = false →
        step4Gen androidHome androidSdkRoot localAppData home plat fsx = .ok none)) ∧
    (resolveSdkPath androidHome androidSdkRoot localAppData home plat = .ok none →
      step4Gen androidHome androidSdkRoot localAppData home plat fsx = .ok none) ∧
    (∀ p, (sdkLine p).data = "sdk.dir=".data ++ escBsL p.data ++ ['\n']) := by
  refine ⟨?_, ?_, ?_, ?_, ?_, sdkLine_data⟩
  · intro p hp
    simp [resolveSdkPath, hp]
  · intro h1 p hp
    simp [resolveSdkPath, h1, hp]
  · intro h1 h2
    refine ⟨?_, ?_, ?_, ?_⟩
    · intro hw l hl
      simp [resolveSdkPath, h1, h2, hw, hl]
    · intro hw hl
      simp [resolveSdkPath, h1, h2, hw, hl]
    · intro hd hm hh
      simp [resolveSdkPath, h1, h2, hd, hh]
    · intro ho
      simp [resolveSdkPath, h1, h2, ho]
  · intro p hres
    constructor
    · intro hfs
      simp [step4Gen, hres, hfs]
    · intro hfs
      simp [step4Gen, hres, hfs]
  · intro hres
    simp [step4Gen, hres]

/-- C7 witness: with `ANDROID_HOME` unset and `ANDROID_SDK_ROOT` empty on
Windows, the `LOCALAPPDATA` default is used and the file is written when that
directory exists. -/
theorem claim7_witness :
    truthyEnvVar none = none ∧
    truthyEnvVar (some "") = none ∧
    resolveSdkPath none (some "") (some "C:\\u") none .win32 =
      .ok (some (winSdkJoin "C:\\u")) ∧
    step4Gen none (some "") (some "C:\\u") none .win32 (fun _ => true) =
      .ok (some (sdkLine (winSdkJoin "C:\\u"))) :=
  ⟨rfl, rfl,
    ((claim7_local_properties none (some "") (some "C:\\u") none .win32
      (fun _ => true)).2.2.1 rfl rfl).1 rfl "C:\\u" rfl,
    ((claim7_local_properties none (some "") (some "C:\\u") none .win32
      (fun _ => true)).2.2.2.1 (winSdkJoin "C:\\u")
      (((claim7_local_properties none (some "") (some "C:\\u") none .win32
        (fun _ => true)).2.2.1 rfl rfl).1 rfl "C:\\u" rfl)).1 rfl⟩

/-! ## Lemmas about whole-script execution -/

lemma runList_cons (s : StepFn) (L : List StepFn) (w : World) :
    runList (s :: L) w =
      match s w with
      | (w2, none) => runList L w2
      | (w2, some e) => (w2, some e) := rfl

lemma runList_step {s : StepFn} {L : List StepFn} {w w2 : World}
    (h : s w = (w2, none)) : runList (s :: L) w = runList L w2 := by
  rw [runList_cons, h]

lemma runList_stop {s : StepFn} {L : List StepFn} {w w2 : World} {e : String}
    (h : s w = (w2, some e)) : runList (s :: L) w = (w2, some e) := by
  rw [runList_cons, h]

lemma trace6 (env : Env) (w : World) :
    (runList [step6W env] w).2 = (if env.capSyncOk then none else some syncFailMsg) ∧
    (runList [step6W env] w).1.manifest = w.manifest ∧
    (∀ m, m ∈ w.errLog → m ∈ (runList [step6W env] w).1.errLog) := by
  cases hs : env.capSyncOk <;> simp [runList, step6W, hs]

lemma trace5 (env : Env) (app : AppConfig) (w : World) :
    (runList [step5W app, step6W env] w).2 =
      (if env.capSyncOk then none else some syncFailMsg) ∧
    (w.manifest = none →
      manifestMissingMsg ∈ (runList [step5W app, step6W env] w).1.errLog ∧
      (runList [step5W app, step6W env] w).1.manifest = none) := by
  cases hm : w.manifest with
  | none =>
    rw [runList_step (show step5W app w =
      ({w with errLog := w.errLog ++ [manifestMissingMsg]}, none) from by
        simp [step5W, hm])]
    obtain ⟨t1, t2, t3⟩ := trace6 env {w with errLog := w.errLog ++ [manifestMissingMsg]}
    refine ⟨t1, fun _ => ⟨?_, ?_⟩⟩
    · exact t3 _ (List.mem_append_right _ (List.mem_singleton_self _))
    · rw [t2]
      exact hm
  | some content =>
    cases hli : lastIndexOf closingTagL content with
    | none =>
      rw [runList_step (show step5W app w =
        ({w with errLog := w.errLog ++ [invalidManifestMsg]}, none) from by
          simp [step5W, hm, hli])]
      refine ⟨(trace6 env _).1, fun hno => ?_⟩
      simp [hm] at hno
    | some i =>
      cases hsm : step5Model app.permissions content with
      | some c2 =>
        rw [runList_step (show step5W app w = ({w with manifest := some c2}, none) from by
          simp [step5W, hm, hli, hsm])]
        refine ⟨(trace6 env _).1, fun hno => ?_⟩
        simp [hm] at hno
      | none =>
        rw [runList_step (show step5W app w = (w, none) from by
          simp [step5W, hm, hli, hsm])]
        refine ⟨(trace6 env _).1, fun hno => ?_⟩
        simp [hm] at hno

lemma trace4 (env : Env) (app : AppConfig) (w : World) :
    (runList [step4W env, step5W app, step6W env] w).2 =
      (match resolveSdkPath env.androidHome env.androidSdkRoot env.localAppData
          env.home env.platform with
       | .error _ => some sdkJoinErrMsg
       | .ok _ => if env.capSyncOk then none else some syncFailMsg) ∧
    (w.manifest = none →
      resolveSdkPath env.androidHome env.androidSdkRoot env.localAppData
        env.home env.platform ≠ .error () →
      manifestMissingMsg ∈ (runList [step4W env, step5W app, step6W env] w).1.errLog ∧
      (runList [step4W env, step5W app, step6W env] w).1.manifest = none) := by
  cases hr : resolveSdkPath env.androidHome env.androidSdkRoot env.localAppData
      env.home env.platform with
  | error e =>
    cases e
    rw [runList_stop (show step4W env w = (w, some sdkJoinErrMsg) from by
      simp [step4W, hr])]
    exact ⟨rfl, fun _ hne => absurd rfl hne⟩
  | ok u =>
    cases u with
    | none =>
      rw [runList_step (show step4W env w =
        ({w with errLog := w.errLog ++ [sdkNotFoundMsg]}, none) from by
          simp [step4W, hr])]
      obtain ⟨t1, t2⟩ := trace5 env app {w with errLog := w.errLog ++ [sdkNotFoundMsg]}
      exact ⟨t1, fun hm _ => t2 hm⟩
    | some p =>
      cases hf : env.sdkPathExists p with
      | true =>
        rw [runList_step (show step4W env w =
          ({w with localProps := some (sdkLine p)}, none) from by
            simp [step4W, hr, hf])]
        obtain ⟨t1, t2⟩ := trace5 env app {w with localProps := some (sdkLine p)}
        exact ⟨t1, fun hm _ => t2 hm⟩
      | false =>
        rw [runList_step (show step4W env w =
          ({w with errLog := w.errLog ++ [sdkNotFoundMsg]}, none) from by
            simp [step4W, hr, hf])]
        obtain ⟨t1, t2⟩ := trace5 env app {w with errLog := w.errLog ++ [sdkNotFoundMsg]}
        exact ⟨t1, fun hm _ => t2 hm⟩

lemma trace3 (env : Env) (app : AppConfig) (w : World) :
    (runList [step3W env, step4W env, step5W app, step6W env] w).2 =
      (if env.capAddOk then
        (match resolveSdkPath env.androidHome env.androidSdkRoot env.localAppData
            env.home env.platform with
         | .error _ => some sdkJoinErrMsg
         | .ok _ => if env.capSyncOk then none else some syncFailMsg)
       else some capAddFailMsg) ∧
    (env.capAddOk = true → env.capAddManifest = none →
      resolveSdkPath env.androidHome env.androidSdkRoot env.localAppData
        env.home env.platform ≠ .error () →
      manifestMissingMsg ∈
        (runList [step3W env, step4W env, step5W app, step6W env] w).1.errLog ∧
      (runList [step3W env, step4W env, step5W app, step6W env] w).1.manifest = none) := by
  cases hc : env.capAddOk with
  | false =>
    rw [runList_stop (show step3W env w = (w, some capAddFailMsg) from by
      simp [step3W, hc])]
    exact ⟨rfl, fun hca => by simp at hca⟩
  | true =>
    rw [runList_step (show step3W env w =
      ({w with androidDirExists := true, manifest := env.capAddManifest}, none) from by
        simp [step3W, hc])]
    obtain ⟨t1, t2⟩ := trace4 env app
      {w with androidDirExists := true, manifest := env.capAddManifest}
    refine ⟨by rw [t1]; simp, fun _ hcm hne => t2 hcm hne⟩

lemma trace2 (env : Env) (app : AppConfig) (w : World) :
    (runList [step2W, step3W env, step4W env, step5W app, step6W env] w).2 =
      (if env.capAddOk then
        (match resolveSdkPath env.androidHome env.androidSdkRoot env.localAppData
            env.home env.platform with
         | .error _ => some sdkJoinErrMsg
         | .ok _ => if env.capSyncOk then none else some syncFailMsg)
       else some capAddFailMsg) ∧
    (env.capAddOk = true → env.capAddManifest = none →
      resolveSdkPath env.androidHome env.androidSdkRoot env.localAppData
        env.home env.platform ≠ .error () →
      manifestMissingMsg ∈
        (runList [step2W, step3W env, step4W env, step5W app, step6W env] w).1.errLog ∧
      (runList [step2W, step3W env, step4W env, step5W app, step6W env] w).1.manifest
        = none) := by
  cases ha : w.androidDirExists with
  | true =>
    rw [runList_step (show step2W w =
      ({w with androidDirExists := false, manifest := none, localProps := none}, none) from by
        simp [step2W, ha])]
    exact trace3 env app _
  | false =>
    rw [runList_step (show step2W w = (w, none) from by simp [step2W, ha])]
    exact trace3 env app _

lemma trace1 (env : Env) (app : AppConfig) (w : World) :
    (runList [step1W env, step2W, step3W env, step4W env, step5W app, step6W env] w).2 =
      tailErr env ∧
    (tailErr env = none → env.capAddManifest = none →
      manifestMissingMsg ∈
        (runList [step1W env, step2W, step3W env, step4W env, step5W app,
          step6W env] w).1.errLog ∧
      (runList [step1W env, step2W, step3W env, step4W env, step5W app,
        step6W env] w).1.manifest = none) := by
  cases hb : env.buildOk with
  | false =>
    rw [runList_stop (show step1W env w = (w, some buildFailMsg) from by
      simp [step1W, hb])]
    refine ⟨by simp [tailErr, hb], fun hte => ?_⟩
    rw [tailErr, if_neg (by simp [hb])] at hte
    cases hte
  | true =>
    rw [runList_step (show step1W env w = (w, none) from by simp [step1W, hb])]
    obtain ⟨t1, t2⟩ := trace2 env app w
    constructor
    · rw [t1, tailErr, if_pos hb]
    · intro hte hcm
      have hta : tailErr env = (if env.capAddOk then
          (match resolveSdkPath env.androidHome env.androidSdkRoot env.localAppData
              env.home env.platform with
           | .error _ => some sdkJoinErrMsg
           | .ok _ => if env.capSyncOk then none else some syncFailMsg)
         else some capAddFailMsg) := by
        rw [tailErr, if_pos hb]
      rw [hta] at hte
      have hca : env.capAddOk = true := by
        cases hc : env.capAddOk
        · rw [hc] at hte
          simp at hte
        · rfl
      rw [hca] at hte
      simp only [if_true] at hte
      have hne : resolveSdkPath env.androidHome env.androidSdkRoot env.localAppData
          env.home env.platform ≠ .error () := by
        intro he
        rw [he] at hte
        cases hte
      exact t2 hca hcm hne

lemma trace05 (env : Env) (app : AppConfig) (w : World) :
    (runList (stepList env app) w).2 =
      (match plugErr env app w.pkgJson with
       | some e => some e
       | none => tailErr env) ∧
    (plugErr env app w.pkgJson = none → tailErr env = none →
      env.capAddManifest = none →
      manifestMissingMsg ∈ (runList (stepList env app) w).1.errLog ∧
      (runList (stepList env app) w).1.manifest = none) := by
  unfold stepList
  cases hp : app.plugins with
  | none =>
    rw [runList_step (show step05W env app w = (w, none) from by simp [step05W, hp])]
    obtain ⟨t1, t2⟩ := trace1 env app w
    refine ⟨by rw [t1]; simp [plugErr, hp], fun _ hte hcm => t2 hte hcm⟩
  | some ps =>
    cases hpk : w.pkgJson with
    | none =>
      rw [runList_stop (show step05W env app w = (w, some pkgMissingMsg) from by
        simp [step05W, hp, hpk])]
      refine ⟨by simp [plugErr, hp, hpk], fun hpe => by simp [plugErr, hp, hpk] at hpe⟩
    | some pr =>
      cases hrc : runCmdsW env (commandsFor (fun k => mergedLookup pr.1 pr.2 k) ps) pr with
      | mk pr2 oc =>
        cases oc with
        | none =>
          rw [runList_step (show step05W env app w = ({w with pkgJson := some pr2}, none)
            from by simp [step05W, hp, hpk, hrc])]
          obtain ⟨t1, t2⟩ := trace1 env app {w with pkgJson := some pr2}
          refine ⟨by rw [t1]; simp [plugErr, hp, hpk, hrc],
            fun _ hte hcm => t2 hte hcm⟩
        | some c =>
          rw [runList_stop (show step05W env app w =
            ({w with pkgJson := some pr2}, some (npmFailMsg c)) from by
              simp [step05W, hp, hpk, hrc])]
          refine ⟨by simp [plugErr, hp, hpk, hrc],
            fun hpe => by simp [plugErr, hp, hpk, hrc] at hpe⟩

lemma scriptErr_eq (env : Env) (app : AppConfig) (pkg : Option PkgPair) :
    scriptErr env app pkg =
      match plugErr env app pkg with
      | some e => some e
      | none => tailErr env := by
  cases hp : app.plugins with
  | none => simp [scriptErr, plugErr, hp]
  | some ps =>
    cases pkg with
    | none => simp [scriptErr, plugErr, hp]
    | some pr =>
      cases h : (runCmdsW env (commandsFor (fun k => mergedLookup pr.1 pr.2 k) ps) pr).2 <;>
        simp [scriptErr, plugErr, hp, h]

lemma step0Write_props (app : AppConfig) (w : World) :
    (step0Write app w).appConfig = w.appConfig ∧
    (step0Write app w).pkgJson = w.pkgJson ∧
    (step0Write app w).manifest = w.manifest ∧
    (w.capConfig = none → (step0Write app w).capConfig = none) ∧
    (∀ m, m ∈ w.errLog → m ∈ (step0Write app w).errLog) ∧
    (w.capConfig = none → capMissingMsg ∈ (step0Write app w).errLog) := by
  unfold step0Write
  cases hc : w.capConfig with
  | some cap =>
    refine ⟨rfl, rfl, rfl, ?_, fun m hm => hm, ?_⟩
    · intro h
      exact Option.noConfusion h
    · intro h
      exact Option.noConfusion h
  | none =>
    exact ⟨rfl, rfl, rfl, fun _ => rfl,
      fun m hm => List.mem_append_left _ hm,
      fun _ => List.mem_append_right _ (List.mem_singleton_self _)⟩

lemma runScript_trace (env : Env) (w : World) :
    (runScript env w).2 =
      (match w.appConfig with
       | none => some appConfigMissingMsg
       | some app => scriptErr env app w.pkgJson) ∧
    (∀ app, w.appConfig = some app → scriptErr env app w.pkgJson = none →
      env.capAddManifest = none →
      manifestMissingMsg ∈ (runScript env w).1.errLog ∧
      (runScript env w).1.manifest = none) := by
  unfold runScript
  cases hac : w.appConfig with
  | none => exact ⟨rfl, fun app happ _ _ => Option.noConfusion happ⟩
  | some app =>
    obtain ⟨-, h0, -, -, -, -⟩ := step0Write_props app w
    obtain ⟨t1, t2⟩ := trace05 env app (step0Write app w)
    constructor
    · rw [t1, h0]
      simp only [scriptErr_eq]
    · intro app2 happ hse hcm
      have happ2 : app = app2 := Option.some.inj happ
      subst happ2
      rw [scriptErr_eq] at hse
      cases hpe : plugErr env app w.pkgJson with
      | some e => simp [hpe] at hse
      | none =>
        rw [hpe] at hse
        exact t2 (by rw [h0]; exact hpe) hse hcm

lemma step05W_frame (env : Env) (app : AppConfig) (w : World) :
    (step05W env app w).1.appConfig = w.appConfig ∧
    (step05W env app w).1.capConfig = w.capConfig ∧
    (∀ m, m ∈ w.errLog → m ∈ (step05W env app w).1.errLog) := by
  unfold step05W
  split
  · exact ⟨rfl, rfl, fun m hm => hm⟩
  · split
    · exact ⟨rfl, rfl, fun m hm => hm⟩
    · split
      · exact ⟨rfl, rfl, fun m hm => hm⟩
      · exact ⟨rfl, rfl, fun m hm => hm⟩

lemma step1W_frame (env : Env) (w : World) :
    (step1W env w).1.appConfig = w.appConfig ∧
    (step1W env w).1.capConfig = w.capConfig ∧
    (∀ m, m ∈ w.errLog → m ∈ (step1W env w).1.errLog) := by
  unfold step1W
  split <;> exact ⟨rfl, rfl, fun m hm => hm⟩

lemma step2W_frame (w : World) :
    (step2W w).1.appConfig = w.appConfig ∧
    (step2W w).1.capConfig = w.capConfig ∧
    (∀ m, m ∈ w.errLog → m ∈ (step2W w).1.errLog) := by
  unfold step2W
  split <;> exact ⟨rfl, rfl, fun m hm => hm⟩

lemma step3W_frame (env : Env) (w : World) :
    (step3W env w).1.appConfig = w.appConfig ∧
    (step3W env w).1.capConfig = w.capConfig ∧
    (∀ m, m ∈ w.errLog → m ∈ (step3W env w).1.errLog) := by
  unfold step3W
  split <;> exact ⟨rfl, rfl, fun m hm => hm⟩

lemma step4W_frame (env : Env) (w : World) :
    (step4W env w).1.appConfig = w.appConfig ∧
    (step4W env w).1.capConfig = w.capConfig ∧
    (∀ m, m ∈ w.errLog → m ∈ (step4W env w).1.errLog) := by
  unfold step4W
  split
  · exact ⟨rfl, rfl, fun m hm => hm⟩
  · exact ⟨rfl, rfl, fun m hm => List.mem_append_left _ hm⟩
  · split
    · exact ⟨rfl, rfl, fun m hm => hm⟩
    · exact ⟨rfl, rfl, fun m hm => List.mem_append_left _ hm⟩

lemma step5W_frame (app : AppConfig) (w : World) :
    (step5W app w).1.appConfig = w.appConfig ∧
    (step5W app w).1.capConfig = w.capConfig ∧
    (∀ m, m ∈ w.errLog → m ∈ (step5W app w).1.errLog) := by
  unfold step5W
  split
  · exact ⟨rfl, rfl, fun m hm => List.mem_append_left _ hm⟩
  · split
    · exact ⟨rfl, rfl, fun m hm => List.mem_append_left _ hm⟩
    · split
      · exact ⟨rfl, rfl, fun m hm => hm⟩
      · exact ⟨rfl, rfl, fun m hm => hm⟩

lemma step6W_frame (env : Env) (w : World) :
    (step6W env w).1.appConfig = w.appConfig ∧
    (step6W env w).1.capConfig = w.capConfig ∧
    (∀ m, m ∈ w.errLog → m ∈ (step6W env w).1.errLog) := by
  unfold step6W
  split <;> exact ⟨rfl, rfl, fun m hm => hm⟩

lemma stepList_frame (env : Env) (app : AppConfig) :
    ∀ s ∈ stepList env app, ∀ w : World,
      (s w).1.appConfig = w.appConfig ∧
      (s w).1.capConfig = w.capConfig ∧
      (∀ m, m ∈ w.errLog → m ∈ (s w).1.errLog) := by
  intro s hs
  simp only [stepList, List.mem_cons, List.not_mem_nil, or_false] at hs
  rcases hs with rfl | rfl | rfl | rfl | rfl | rfl | rfl
  · exact step05W_frame env app
  · exact step1W_frame env
  · exact step2W_frame
  · exact step3W_frame env
  · exact step4W_frame env
  · exact step5W_frame app
  · exact step6W_frame env

lemma runList_frame :
    ∀ (L : List StepFn) (w : World),
      (∀ s ∈ L, ∀ w2 : World,
        (s w2).1.appConfig = w2.appConfig ∧
        (s w2).1.capConfig = w2.capConfig ∧
        (∀ m, m ∈ w2.errLog → m ∈ (s w2).1.errLog)) →
      (runList L w).1.appConfig = w.appConfig ∧
      (runList L w).1.capConfig = w.capConfig ∧
      (∀ m, m ∈ w.errLog → m ∈ (runList L w).1.errLog) := by
  intro L
  induction L with
  | nil => intro w _; exact ⟨rfl, rfl, fun m hm => hm⟩
  | cons s rest ih =>
    intro w hL
    obtain ⟨h1, h2, h3⟩ := hL s (List.mem_cons_self s rest) w
    rw [runList_cons]
    cases hsw : s w with
    | mk w2 oe =>
      rw [hsw] at h1 h2 h3
      cases oe with
      | none =>
        obtain ⟨g1, g2, g3⟩ := ih w2 (fun s2 hs2 => hL s2 (List.mem_cons_of_mem s hs2))
        exact ⟨g1.trans h1, g2.trans h2, fun m hm => g3 m (h3 m hm)⟩
      | some e => exact ⟨h1, h2, h3⟩

lemma runScript_frame (env : Env) (w : World) :
    (runScript env w).1.appConfig = w.appConfig ∧
    (w.capConfig = none → (runScript env w).1.capConfig = none) ∧
    (∀ m, m ∈ w.errLog → m ∈ (runScript env w).1.errLog) ∧
    (w.appConfig ≠ none → w.capConfig = none →
      capMissingMsg ∈ (runScript env w).1.errLog) := by
  unfold runScript
  cases hac : w.appConfig with
  | none => exact ⟨hac, fun h => h, fun m hm => hm, fun hne _ => absurd rfl hne⟩
  | some app =>
    obtain ⟨p1, p2, p3, p4, p5, p6⟩ := step0Write_props app w
    obtain ⟨f1, f2, f3⟩ := runList_frame (stepList env app) (step0Write app w)
      (stepList_frame env app)
    refine ⟨f1.trans (p1.trans hac), ?_, fun m hm => f3 m (p5 m hm), ?_⟩
    · intro hcc
      rw [f2, p4 hcc]
    · intro _ hcc
      exact f3 _ (p6 hcc)

lemma runMain_cases (env : Env) (w : World) :
    ((runScript env w).2 = none → runMain env w = ((runScript env w).1, 0)) ∧
    (∀ e, (runScript env w).2 = some e →
      (runMain env w).2 = 1 ∧
      (runMain env w).1.errLog = (runScript env w).1.errLog ++ [buildFailedBanner, e] ∧
      (runMain env w).1.appConfig = (runScript env w).1.appConfig ∧
      (runMain env w).1.capConfig = (runScript env w).1.capConfig ∧
      (runMain env w).1.manifest = (runScript env w).1.manifest) := by
  unfold runMain
  cases hrs : runScript env w with
  | mk w2 oe =>
    cases oe with
    | none => exact ⟨fun _ => rfl, fun e he => Option.noConfusion he⟩
    | some e2 =>
      refine ⟨fun h => Option.noConfusion h, fun e he => ?_⟩
      have he2 : e2 = e := Option.some.inj he
      subst he2
      exact ⟨rfl, rfl, rfl, rfl, rfl⟩

lemma runMain_frame (env : Env) (w : World) :
    (runMain env w).1.appConfig = w.appConfig ∧
    (w.capConfig = none → (runMain env w).1.capConfig = none) ∧
    (∀ m, m ∈ (runScript env w).1.errLog → m ∈ (runMain env w).1.errLog) := by
  obtain ⟨s1, s2, s3, s4⟩ := runScript_frame env w
  obtain ⟨mc1, mc2⟩ := runMain_cases env w
  cases hoe : (runScript env w).2 with
  | none =>
    rw [mc1 hoe]
    exact ⟨s1, s2, fun m hm => hm⟩
  | some e =>
    obtain ⟨q1, q2, q3, q4, q5⟩ := mc2 e hoe
    refine ⟨q3.trans s1, fun hcc => q4.trans (s2 hcc), fun m hm => ?_⟩
    rw [q2]
    exact List.mem_append_left _ hm

/-- C5: the exit code is 0 exactly when no step throws; when a step throws,
the exit code is 1 and the caught error is printed to the error stream before
exiting. -/
theorem claim5_exit_code (env : Env) (w : World) :
    ((runMain env w).2 = 0 ∨ (runMain env w).2 = 1) ∧
    ((runMain env w).2 = 0 ↔ (runScript env w).2 = none) ∧
    (∀ e, (runScript env w).2 = some e →
      (runMain env w).2 = 1 ∧ e ∈ (runMain env w).1.errLog) := by
  obtain ⟨mc1, mc2⟩ := runMain_cases env w
  cases hoe : (runScript env w).2 with
  | none =>
    rw [mc1 hoe]
    refine ⟨Or.inl rfl, by simp [hoe], fun e he => ?_⟩
    exact Option.noConfusion he
  | some e2 =>
    obtain ⟨q1, q2, q3, q4, q5⟩ := mc2 e2 hoe
    refine ⟨Or.inr q1, by simp [q1, hoe], fun e he => ?_⟩
    have he2 : e = e2 := (Option.some.inj he).symm
    subst he2
    refine ⟨q1, ?_⟩
    rw [q2]
    exact List.mem_append_right _ (by simp)

/-- C5 witness: a run with a missing app configuration exits 1 with the
error on the error stream. -/
theorem claim5_witness :
    (runScript ⟨none, none, none, none, .other, fun _ => false, fun _ => "1",
        fun _ => true, true, true, none, true⟩
      ⟨none, none, none, none, none, false, []⟩).2 = some appConfigMissingMsg ∧
    (runMain ⟨none, none, none, none, .other, fun _ => false, fun _ => "1",
        fun _ => true, true, true, none, true⟩
      ⟨none, none, none, none, none, false, []⟩).2 = 1 ∧
    appConfigMissingMsg ∈ (runMain ⟨none, none, none, none, .other, fun _ => false,
        fun _ => "1", fun _ => true, true, true, none, true⟩
      ⟨none, none, none, none, none, false, []⟩).1.errLog :=
  ⟨rfl,
    ((claim5_exit_code ⟨none, none, none, none, .other, fun _ => false, fun _ => "1",
        fun _ => true, true, true, none, true⟩
      ⟨none, none, none, none, none, false, []⟩).2.2 appConfigMissingMsg rfl).1,
    ((claim5_exit_code ⟨none, none, none, none, .other, fun _ => false, fun _ => "1",
        fun _ => true, true, true, none, true⟩
      ⟨none, none, none, none, none, false, []⟩).2.2 appConfigMissingMsg rfl).2⟩

/-- C8: no step ever writes the app configuration file: its (parsed) content
after a whole run equals its content before the run, whether the run succeeds
or fails. -/
theorem claim8_appconfig_readonly (env : Env) (w : World) :
    (runMain env w).1.appConfig = w.appConfig :=
  (runMain_frame env w).1

/-- C6: a missing `app-config.json` makes step 0 throw, so the run exits 1
with the error logged and the file is not created; a missing
`capacitor.config.json` only logs a warning, is never created, and has no
influence on whether or with what error the script throws; a missing
manifest at step 5 (the generator produced none) only logs a warning on an
otherwise successful run and the manifest is not created. -/
theorem claim6_missing_files (env : Env) (w : World) :
    (w.appConfig = none →
      (runMain env w).2 = 1 ∧ appConfigMissingMsg ∈ (runMain env w).1.errLog ∧
      (runMain env w).1.appConfig = none) ∧
    (w.appConfig ≠ none → w.capConfig = none →
      capMissingMsg ∈ (runMain env w).1.errLog ∧
      (runMain env w).1.capConfig = none ∧
      (∀ c, (runScript env {w with capConfig := some c}).2 = (runScript env w).2)) ∧
    ((runScript env w).2 = none → env.capAddManifest = none →
      manifestMissingMsg ∈ (runMain env w).1.errLog ∧
      (runMain env w).1.manifest = none) := by
  refine ⟨?_, ?_, ?_⟩
  · intro hac
    have herr : (runScript env w).2 = some appConfigMissingMsg := by
      rw [(runScript_trace env w).1, hac]
    obtain ⟨q1, q2, -, -, -⟩ := (runMain_cases env w).2 _ herr
    refine ⟨q1, ?_, (runMain_frame env w).1.trans hac⟩
    rw [q2]
    exact List.mem_append_right _ (by simp)
  · intro hne hcc
    refine ⟨(runMain_frame env w).2.2 _ ((runScript_frame env w).2.2.2 hne hcc),
      (runMain_frame env w).2.1 hcc, ?_⟩
    intro c
    rw [(runScript_trace env {w with capConfig := some c}).1, (runScript_trace env w).1]
  · intro hsucc hcm
    cases hac : w.appConfig with
    | none =>
      exfalso
      have herr : (runScript env w).2 = some appConfigMissingMsg := by
        rw [(runScript_trace env w).1, hac]
      rw [hsucc] at herr
      exact Option.noConfusion herr
    | some app =>
      have h1 : (runScript env w).2 = scriptErr env app w.pkgJson := by
        rw [(runScript_trace env w).1, hac]
      have hse : scriptErr env app w.pkgJson = none := by
        rw [← h1, hsucc]
      have hman := (runScript_trace env w).2 app hac hse hcm
      rw [(runMain_cases env w).1 hsucc]
      exact hman

/-- C6 witness: concrete runs — a missing app config exits 1; a missing
bridge config and a missing generated manifest only produce warnings on an
otherwise successful run, and neither file is created. -/
theorem claim6_witness :
    (runMain ⟨none, none, none, none, .other, fun _ => false, fun _ => "1",
        fun _ => true, true, true, none, true⟩
      ⟨none, none, none, none, none, false, []⟩).2 = 1 ∧
    (runScript ⟨none, none, none, none, .other, fun _ => false, fun _ => "1",
        fun _ => true, true, true, none, true⟩
      ⟨some ⟨"i", "n", "u", none, none, none⟩, none, none, none, none, false, []⟩).2
      = none ∧
    capMissingMsg ∈ (runMain ⟨none, none, none, none, .other, fun _ => false,
        fun _ => "1", fun _ => true, true, true, none, true⟩
      ⟨some ⟨"i", "n", "u", none, none, none⟩, none, none, none, none, false, []⟩).1.errLog ∧
    (runMain ⟨none, none, none, none, .other, fun _ => false, fun _ => "1",
        fun _ => true, true, true, none, true⟩
      ⟨some ⟨"i", "n", "u", none, none, none⟩, none, none, none, none, false, []⟩).1.capConfig
      = none ∧
    manifestMissingMsg ∈ (runMain ⟨none, none, none, none, .other, fun _ => false,
        fun _ => "1", fun _ => true, true, true, none, true⟩
      ⟨some ⟨"i", "n", "u", none, none, none⟩, none, none, none, none, false, []⟩).1.errLog ∧
    (runMain ⟨none, none, none, none, .other, fun _ => false, fun _ => "1",
        fun _ => true, true, true, none, true⟩
      ⟨some ⟨"i", "n", "u", none, none, none⟩, none, none, none, none, false, []⟩).1.manifest
      = none :=
  ⟨((claim6_missing_files ⟨none, none, none, none, .other, fun _ => false, fun _ => "1",
      fun _ => true, true, true, none, true⟩
      ⟨none, none, none, none, none, false, []⟩).1 rfl).1,
   rfl,
   ((claim6_missing_files _ ⟨some ⟨"i", "n", "u", none, none, none⟩, none, none, none,
      none, false, []⟩).2.1 (fun h => Option.noConfusion h) rfl).1,
   ((claim6_missing_files _ ⟨some ⟨"i", "n", "u", none, none, none⟩, none, none, none,
      none, false, []⟩).2.1 (fun h => Option.noConfusion h) rfl).2.1,
   ((claim6_missing_files ⟨none, none, none, none, .other, fun _ => false, fun _ => "1",
      fun _ => true, true, true, none, true⟩
      ⟨some ⟨"i", "n", "u", none, none, none⟩, none, none, none, none, false, []⟩).2.2
      rfl rfl).1,
   ((claim6_missing_files ⟨none, none, none, none, .other, fun _ => false, fun _ => "1",
      fun _ => true, true, true, none, true⟩
      ⟨some ⟨"i", "n", "u", none, none, none⟩, none, none, none, none, false, []⟩).2.2
      rfl rfl).2⟩

/-- C2 witness: with the benign permission `p` and a real manifest, the
second application of step 5 performs no write and the result is unchanged. -/
theorem claim2_witness :
    includesSub "<m></manifest>".data closingTagL = true ∧
    step5Core [("p", true)] (applyStep [("p", true)] "<m></manifest>".data) = none ∧
    applyStep [("p", true)] (applyStep [("p", true)] "<m></manifest>".data) =
      applyStep [("p", true)] "<m></manifest>".data :=
  ⟨by decide,
   (claim2_second_run_no_write [("p", true)] "<m></manifest>".data
      (by
        intro n hn
        rcases List.mem_cons.mp hn with h | h
        · have hn2 : n = "p" := congrArg Prod.fst h
          subst hn2
          decide
        · cases h)
      (by decide)).2.1,
   (claim2_second_run_no_write [("p", true)] "<m></manifest>".data
      (by
        intro n hn
        rcases List.mem_cons.mp hn with h | h
        · have hn2 : n = "p" := congrArg Prod.fst h
          subst hn2
          decide
        · cases h)
      (by decide)).2.2.1⟩
